import Mathlib

/-!
# pipbingo: chunked file transfer and the download/seed state machine

A shallow embedding of the chunk server of the origin
(`src/server/backend_main_go.go`) and of the client daemon
(`src/client/client_daemon_main.go`), followed by the properties of the
specification that were checked against it.

Modelling conventions
* Go `int` and `int64` are 64-bit two's complement integers: they are `Int`
  values, and arithmetic that can leave the range is wrapped by `wrapInt64`.
* The chunk size is the first argument of every function that uses the
  constant `ChunkSize`; `ChunkSize` is the value of both source files.
* A file system is a map from cleaned paths to nodes.  Device errors other
  than the ones listed at each operation are not modelled.
* `path/filepath` is modelled for Unix paths (separator `/`, no volume name).
-/

namespace PipBingo

/-! ## Machine integers -/

/-- Two's complement wrap-around of a 64-bit signed integer. -/
def wrapInt64 (x : Int) : Int := (x + 2 ^ 63) % 2 ^ 64 - 2 ^ 63

/-! ## path/filepath (Unix) -/

/-- Split a path at every separator; `"a//b"` gives `a`, the empty element, `b`. -/
def splitSep : List Char → List (List Char)
  | [] => [[]]
  | c :: cs =>
    match splitSep cs with
    | [] => [[]]
    | e :: es => if c = '/' then [] :: e :: es else (c :: e) :: es

/-- One step of the element loop of `filepath.Clean`: `out` is the stack of
elements written so far, innermost first.  Empty and `.` elements are skipped,
`..` removes the last written element when there is one that is not itself a
leading `..`, is dropped at the root, and is kept otherwise. -/
def cleanStep (rooted : Bool) (out : List (List Char)) (e : List Char) : List (List Char) :=
  if e = [] ∨ e = ['.'] then out
  else if e = ['.', '.'] then
    match out with
    | [] => if rooted then [] else [e]
    | top :: rest => if top = ['.', '.'] then e :: top :: rest else rest
  else e :: out

/-- Body of `filepath.Clean` on characters. -/
def cleanChars (path : List Char) : List Char :=
  if path = [] then ['.']
  else
    let rooted := path.head? = some '/'
    let out := (splitSep path).foldl (cleanStep rooted) []
    let body := List.intercalate ['/'] out.reverse
    if rooted then '/' :: body
    else if body = [] then ['.'] else body

/-- Go `filepath.Clean`. -/
def Clean (path : String) : String := String.mk (cleanChars path.data)

/-- Strip the trailing separators, as the first loop of `filepath.Base`. -/
def stripTrailingSep (path : List Char) : List Char :=
  (path.reverse.dropWhile (fun c => c = '/')).reverse

/-- Characters after the last separator, as the second loop of `filepath.Base`. -/
def lastElement (path : List Char) : List Char :=
  (path.reverse.takeWhile (fun c => c ≠ '/')).reverse

/-- Body of `filepath.Base` on characters. -/
def baseChars (path : List Char) : List Char :=
  if path = [] then ['.']
  else
    let p := lastElement (stripTrailingSep path)
    if p = [] then ['/'] else p

/-- Go `filepath.Base`. -/
def Base (path : String) : String := String.mk (baseChars path.data)

/-- Go `filepath.Join` of two elements: empty elements are ignored, the rest is
joined with the separator and cleaned. -/
def Join (a b : String) : String :=
  if a = "" then (if b = "" then "" else Clean b)
  else Clean (String.mk (a.data ++ '/' :: b.data))

/-! ## Storage -/

/-- One byte of file content. -/
abbrev Byte := Fin 256

/-- An entry of the file system. `readable` tells whether `os.Open` succeeds on
the file; `size` is what `Stat` reports for a directory. -/
inductive Node where
  | file (data : List Byte) (readable : Bool)
  | dir (size : Nat)
  deriving DecidableEq, Repr

/-- The file system: cleaned path to entry. -/
abbrev FileSystem := String → Option Node

/-- Result of `fileInfo.Size()`. -/
def Node.size : Node → Nat
  | .file data _ => data.length
  | .dir size => size

/-- Whether `os.Open` succeeds. -/
def Node.canOpen : Node → Bool
  | .file _ readable => readable
  | .dir _ => true

/-- Result of `file.Read(buf)` with `len(buf) = len` at position `pos`: the bytes
read, or `none` for an error other than `io.EOF` (reading a directory). At or
past the end of a file the read returns no byte and `io.EOF`. -/
def Node.readAt : Node → Nat → Nat → Option (List Byte)
  | .file data _, pos, len => some ((data.drop pos).take len)
  | .dir _, _, _ => none

/-- File-system calls made while serving a request. -/
inductive FsOp where
  | osStat (path : String)
  | osOpen (path : String)
  | fileSeek (path : String) (offset : Int)
  | fileRead (path : String) (len : Nat)
  deriving DecidableEq, Repr

/-! ## Wire messages (identical in both programs) -/

/-- Go `P2PRequest`. -/
structure P2PRequest where
  Action : String
  Filename : String
  ChunkIndex : Int
  deriving DecidableEq, Repr

/-- Go `P2PResponse`. -/
structure P2PResponse where
  Status : String
  ChunkData : List Byte
  ChunkIndex : Int
  TotalChunks : Int
  Error : String
  deriving DecidableEq, Repr

/-- What a handler did: the response written to the stream and the file-system
calls made, in order. -/
structure Served where
  response : P2PResponse
  fsTrace : List FsOp
  deriving DecidableEq, Repr

/-- Value of the constant `ChunkSize` in both source files. -/
def ChunkSize : Nat := 256 * 1024

/-- Response built by `sendP2PError` (same body in both programs). -/
def sendP2PError (errMsg : String) : P2PResponse :=
  { Status := "error", ChunkData := [], ChunkIndex := 0, TotalChunks := 0, Error := errMsg }

/-! ## Origin server -/

namespace Server

/-- Constant `UploadDir`. -/
def UploadDir : String := "./uploads"

/-- Go `Server.handleFileRequest`. -/
def handleFileRequest (chunkSize : Nat) (fs : FileSystem) (req : P2PRequest) : Served :=
  let filePath := Join UploadDir (Base req.Filename)
  match fs filePath with
  | none => ⟨sendP2PError "file_not_found", [.osStat filePath]⟩
  | some node =>
    let totalChunks := wrapInt64 ((node.size : Int) / chunkSize + 1)
    if !node.canOpen then
      ⟨sendP2PError "read_error", [.osStat filePath, .osOpen filePath]⟩
    else
      let offset := wrapInt64 (req.ChunkIndex * chunkSize)
      if offset < 0 then
        ⟨sendP2PError "seek_error",
          [.osStat filePath, .osOpen filePath, .fileSeek filePath offset]⟩
      else
        let ops := [.osStat filePath, .osOpen filePath, .fileSeek filePath offset,
          .fileRead filePath chunkSize]
        match node.readAt offset.toNat chunkSize with
        | none => ⟨sendP2PError "read_error", ops⟩
        | some chunkData =>
          ⟨{ Status := "success", ChunkData := chunkData, ChunkIndex := req.ChunkIndex,
             TotalChunks := totalChunks, Error := "" }, ops⟩

/-- Go `Server.handleP2PStream`; `none` is a request that fails to decode. -/
def handleP2PStream (chunkSize : Nat) (fs : FileSystem) (msg : Option P2PRequest) : Served :=
  match msg with
  | none => ⟨sendP2PError "invalid_request", []⟩
  | some req =>
    if req.Action = "request_file" then handleFileRequest chunkSize fs req
    else ⟨sendP2PError "unknown_action", []⟩

end Server

/-! ## Client daemon: data model -/

/-- A `float64` with rounding left out: a finite value is an exact rational;
`posInf` is the result of dividing a positive value by zero. -/
inductive F64 where
  | finite (q : Rat)
  | posInf
  deriving DecidableEq

/-- Go `DownloadStatus`. Times are readings of a clock, as natural numbers. The
field `DownloadSpeed`, a function of elapsed wall-clock time, is left out. -/
structure DownloadStatus where
  Filename : String
  Status : String
  Progress : F64
  BytesDownloaded : Int
  TotalBytes : Int
  PeersConnected : Int
  StartedAt : Nat
  CompletedAt : Option Nat
  deriving DecidableEq

/-- Go `Daemon`, without the transport handles: the Status Registry `downloads`,
the queue `downloadQueue` (a channel, in send order) and the Seeder Registry
`activeSeeders`. A Go map is a partial function. -/
structure Daemon where
  downloads : String → Option DownloadStatus
  downloadQueue : List String
  activeSeeders : String → Option Bool

/-- Go `NewDaemon`. -/
def NewDaemon : Daemon :=
  { downloads := fun _ => none, downloadQueue := [], activeSeeders := fun _ => none }

/-! ## Client daemon: serving side -/

namespace Daemon

/-- Constant `CacheDir`. -/
def CacheDir : String := "./cache"

/-- Go `Daemon.sendFileChunk`. The results of `Seek` and of `Read` are not
checked: after a failed seek the position is still 0, after a failed read no
byte was read. -/
def sendFileChunk (chunkSize : Nat) (fs : FileSystem) (req : P2PRequest) : Served :=
  let filePath := Join CacheDir (Base req.Filename)
  match fs filePath with
  | none => ⟨sendP2PError "file_not_found", [.osStat filePath]⟩
  | some node =>
    let totalChunks := wrapInt64 ((node.size : Int) / chunkSize + 1)
    if !node.canOpen then
      ⟨sendP2PError "read_error", [.osStat filePath, .osOpen filePath]⟩
    else
      let offset := wrapInt64 (req.ChunkIndex * chunkSize)
      let pos := if offset < 0 then 0 else offset.toNat
      let chunkData := (node.readAt pos chunkSize).getD []
      ⟨{ Status := "success", ChunkData := chunkData, ChunkIndex := req.ChunkIndex,
         TotalChunks := totalChunks, Error := "" },
       [.osStat filePath, .osOpen filePath, .fileSeek filePath offset,
        .fileRead filePath chunkSize]⟩

/-- Go `Daemon.handleIncomingP2PRequest`. Reading a missing key of the
`map[string]bool` gives `false`. `msg = none` is a request that fails to decode:
the handler returns without writing a response. -/
def handleIncomingP2PRequest (chunkSize : Nat) (d : Daemon)
    (fs : FileSystem) (msg : Option P2PRequest) : Option Served :=
  match msg with
  | none => none
  | some req =>
    let isSeeding := (d.activeSeeders req.Filename).getD false
    if !isSeeding then some ⟨sendP2PError "file_not_available", []⟩
    else some (sendFileChunk chunkSize fs req)

end Daemon

/-! ## Client daemon: fetching side -/

/-- What the outside world answers to the `n`-th chunk exchange of a run. -/
inductive Reply where
  | sendFailed
  | recvFailed
  | response (r : P2PResponse)

/-- The environment of one run of `performDownload`: whether the `n`-th
`NewStream` succeeds (`n = 0` is the one before the loop), whether `os.Create`
is permitted, the peer's answer to the request of iteration `n`, and whether the
`n`-th `destFile.Write` succeeds. -/
structure Env where
  streamOk : Nat → Bool
  createOk : Bool
  peer : Nat → P2PRequest → Reply
  writeOk : Nat → Bool

/-- History of the daemon, kept for stating properties only. -/
inductive Happened where
  | foundInCache (filename : String)
  | runSucceeded (filename : String)
  | runFailed (filename : String)
  deriving DecidableEq

/-- The daemon in its surroundings: its registries, its local storage, the
requests it has written to streams so far, and the history. -/
structure World where
  d : Daemon
  fs : FileSystem
  sent : List P2PRequest
  history : List Happened

/-- Result of `os.Create`: fails on a directory or when the environment refuses,
otherwise the path holds an empty file. -/
def createFile (fs : FileSystem) (path : String) (permitted : Bool) : Option FileSystem :=
  match fs path with
  | some (.dir _) => none
  | _ => if permitted then some (Function.update fs path (some (.file [] true))) else none

/-- Effect of a successful `destFile.Write(chunk)` on the file at `path`. -/
def appendFile (fs : FileSystem) (path : String) (chunk : List Byte) : FileSystem :=
  match fs path with
  | some (.file data readable) => Function.update fs path (some (.file (data ++ chunk) readable))
  | _ => fs

/-- The expression `float64(chunkIndex+1) / float64(totalChunks) * 100`. -/
def progressOf (chunkIndex : Nat) (totalChunks : Int) : F64 :=
  if totalChunks = 0 then .posInf
  else .finite (((chunkIndex : Rat) + 1) / (totalChunks : Rat) * 100)

namespace Daemon

/-- Go `Daemon.updateDownloadStatus`; `now` is the reading of `time.Now()`. -/
def updateDownloadStatus (d : Daemon) (filename status : String) (progress : F64)
    (now : Nat) : Daemon :=
  match d.downloads filename with
  | some ds =>
    { d with
      downloads := Function.update d.downloads filename
        (some { ds with
          Status := status,
          Progress := progress,
          CompletedAt := if status = "completed" then some now else ds.CompletedAt }) }
  | none => d

/-- Go `Daemon.startSeeding`. -/
def startSeeding (d : Daemon) (filename : String) (now : Nat) : Daemon :=
  updateDownloadStatus
    { d with activeSeeders := Function.update d.activeSeeders filename (some true) }
    filename "seeding" (.finite 100) now

/-- Go `Daemon.DownloadAndSeed`. The send on the channel is taken as completed
(a full channel only delays it). -/
def DownloadAndSeed (w : World) (filename : String) (now : Nat) : World :=
  let cachedPath := Join CacheDir filename
  match w.fs cachedPath with
  | some _ =>
    { w with
      d := startSeeding w.d filename now,
      history := w.history ++ [.foundInCache filename] }
  | none =>
    { w with
      d := { w.d with
        downloads := Function.update w.d.downloads filename
          (some { Filename := filename, Status := "downloading", Progress := .finite 0,
                  BytesDownloaded := 0, TotalBytes := 0, PeersConnected := 1,
                  StartedAt := now, CompletedAt := none }),
        downloadQueue := w.d.downloadQueue ++ [filename] } }

/-- The block of `performDownload` that publishes the progress of a chunk. -/
def publishProgress (chunkSize : Nat) (d : Daemon) (filename : String) (chunkIndex : Nat)
    (totalChunks : Int) : Daemon :=
  match d.downloads filename with
  | some status =>
    { d with
      downloads := Function.update d.downloads filename
        (some { status with
          Progress := progressOf chunkIndex totalChunks,
          BytesDownloaded := wrapInt64 (((chunkIndex : Int) + 1) * chunkSize),
          TotalBytes := wrapInt64 (totalChunks * chunkSize) }) }
  | none => d

/-- How one pass through the body of the `for` loop of `performDownload` ends:
the function returns (`ok` tells whether the error is `nil`; the `break` leads to
`return nil`), or the loop is entered again. -/
inductive LoopStep where
  | exit (w : World) (ok : Bool)
  | again (chunkIndex : Nat) (totalChunks : Int) (w : World)

/-- Body of the `for` loop of `performDownload`, entered with the current values
of `chunkIndex` and `totalChunks`. -/
def loopBody (chunkSize : Nat) (env : Env) (filename destPath : String)
    (chunkIndex : Nat) (totalChunks : Int) (w : World) : LoopStep :=
  let request : P2PRequest :=
    { Action := "request_file", Filename := filename, ChunkIndex := chunkIndex }
  let w := { w with sent := w.sent ++ [request] }
  match env.peer chunkIndex request with
  | .sendFailed => .exit w false
  | .recvFailed => .exit w false
  | .response response =>
    if response.Status = "error" then .exit w false
    else
      let totalChunks := if totalChunks = 0 then response.TotalChunks else totalChunks
      if env.writeOk chunkIndex = false then .exit w false
      else
        let w := { w with
          fs := appendFile w.fs destPath response.ChunkData,
          d := publishProgress chunkSize w.d filename chunkIndex totalChunks }
        let chunkIndex := chunkIndex + 1
        if (chunkIndex : Int) ≥ totalChunks then .exit w true
        else if env.streamOk chunkIndex = false then .exit w false
        else .again chunkIndex totalChunks w

/-- The world at the end of a pass through the loop body. -/
def LoopStep.world : LoopStep → World
  | .exit w _ => w
  | .again _ _ w => w

/-- The `for` loop of `performDownload`: the world at the `return` and whether
the returned error is `nil`. -/
def downloadLoop (chunkSize : Nat) (env : Env) (filename destPath : String)
    (chunkIndex : Nat) (totalChunks : Int) (w : World) : World × Bool :=
  match h : loopBody chunkSize env filename destPath chunkIndex totalChunks w with
  | .exit w ok => (w, ok)
  | .again chunkIndex' totalChunks' w' =>
    downloadLoop chunkSize env filename destPath chunkIndex' totalChunks' w'
termination_by ((if totalChunks = 0 then 1 else 0 : Nat), (totalChunks - chunkIndex).toNat)
decreasing_by
  have key : chunkIndex' = chunkIndex + 1 ∧ (chunkIndex' : Int) < totalChunks' ∧
      (totalChunks ≠ 0 → totalChunks' = totalChunks) := by
    simp only [loopBody] at h
    cases hp : env.peer chunkIndex
        { Action := "request_file", Filename := filename, ChunkIndex := chunkIndex } with
    | sendFailed => simp [hp] at h
    | recvFailed => simp [hp] at h
    | response response =>
      simp only [hp] at h
      split_ifs at h
      all_goals
        cases h
        refine ⟨rfl, by omega, ?_⟩
        intro hne
        first | rfl | exact absurd ‹totalChunks = 0› hne
  obtain ⟨h1, h2, h3⟩ := key
  by_cases h0 : totalChunks = 0
  · simp only [h0, if_true]
    apply Prod.Lex.left
    have : ¬ (totalChunks' = 0) := by omega
    simp [this]
  · have h4 := h3 h0
    subst h4
    simp only [h0, if_false]
    apply Prod.Lex.right
    omega

/-- The worlds at the end of each pass through the loop body, in order: what the
loop, entered with these values of `chunkIndex` and `totalChunks`, has written
after its first pass, after its second pass, and so on up to the `return`. -/
def loopWorlds (chunkSize : Nat) (env : Env) (filename destPath : String)
    (chunkIndex : Nat) (totalChunks : Int) (w : World) : List World :=
  match h : loopBody chunkSize env filename destPath chunkIndex totalChunks w with
  | .exit w' _ => [w']
  | .again chunkIndex' totalChunks' w' =>
    w' :: loopWorlds chunkSize env filename destPath chunkIndex' totalChunks' w'
termination_by ((if totalChunks = 0 then 1 else 0 : Nat), (totalChunks - chunkIndex).toNat)
decreasing_by
  have key : chunkIndex' = chunkIndex + 1 ∧ (chunkIndex' : Int) < totalChunks' ∧
      (totalChunks ≠ 0 → totalChunks' = totalChunks) := by
    simp only [loopBody] at h
    cases hp : env.peer chunkIndex
        { Action := "request_file", Filename := filename, ChunkIndex := chunkIndex } with
    | sendFailed => simp [hp] at h
    | recvFailed => simp [hp] at h
    | response response =>
      simp only [hp] at h
      split_ifs at h
      all_goals
        cases h
        refine ⟨rfl, by omega, ?_⟩
        intro hne
        first | rfl | exact absurd ‹totalChunks = 0› hne
  obtain ⟨h1, h2, h3⟩ := key
  by_cases h0 : totalChunks = 0
  · simp only [h0, if_true]
    apply Prod.Lex.left
    have : ¬ (totalChunks' = 0) := by omega
    simp [this]
  · have h4 := h3 h0
    subst h4
    simp only [h0, if_false]
    apply Prod.Lex.right
    omega

/-- Go `Daemon.performDownload`. -/
def performDownload (chunkSize : Nat) (env : Env) (w : World) (filename : String) :
    World × Bool :=
  if env.streamOk 0 = false then (w, false)
  else
    let destPath := Join CacheDir filename
    match createFile w.fs destPath env.createOk with
    | none => (w, false)
    | some fs => downloadLoop chunkSize env filename destPath 0 0 { w with fs := fs }

/-- One iteration of the loop of Go `Daemon.downloadWorker`: take a filename
from the queue (nothing happens while the queue is empty), run the download and
record its outcome. -/
def downloadWorker (chunkSize : Nat) (env : Env) (now : Nat) (w : World) : World :=
  match w.d.downloadQueue with
  | [] => w
  | filename :: rest =>
    let r := performDownload chunkSize env { w with d := { w.d with downloadQueue := rest } }
      filename
    if r.2 then
      { r.1 with
        d := startSeeding (updateDownloadStatus r.1.d filename "completed" (.finite 100) now)
          filename now,
        history := r.1.history ++ [.runSucceeded filename] }
    else
      { r.1 with
        d := updateDownloadStatus r.1.d filename "error" (.finite 0) now,
        history := r.1.history ++ [.runFailed filename] }

end Daemon

/-! ## The daemon as a transition system -/

/-- What can happen to the daemon: a call of `DownloadAndSeed`, or a worker
taking the next filename of the queue and running it against an environment. -/
inductive Event where
  | downloadAndSeed (filename : String) (now : Nat)
  | workerRun (env : Env) (now : Nat)

/-- Effect of one event. -/
def step (chunkSize : Nat) (w : World) : Event → World
  | .downloadAndSeed filename now => Daemon.DownloadAndSeed w filename now
  | .workerRun env now => Daemon.downloadWorker chunkSize env now w

/-- Effect of a sequence of events. -/
def exec (chunkSize : Nat) (w : World) (events : List Event) : World :=
  events.foldl (step chunkSize) w

/-- The environment in which every stream opens, every local write succeeds and
the peer is the origin server over the storage `fsOrigin`. -/
def originEnv (chunkSize : Nat) (fsOrigin : FileSystem) : Env :=
  { streamOk := fun _ => true
    createOk := true
    peer := fun _ req => .response (Server.handleP2PStream chunkSize fsOrigin (some req)).response
    writeOk := fun _ => true }

/-- An environment in which nothing fails and the peer answers every request
with an empty success response; the first response announces `total` chunks,
every later one announces 1000. -/
def steadyEnv (total : Int) : Env :=
  { streamOk := fun _ => true
    createOk := true
    peer := fun n req => .response
      { Status := "success", ChunkData := [], ChunkIndex := req.ChunkIndex,
        TotalChunks := if n = 0 then total else 1000, Error := "" }
    writeOk := fun _ => true }

/-- A fresh daemon over the storage `fs`. -/
def initialWorld (fs : FileSystem) : World :=
  { d := NewDaemon, fs := fs, sent := [], history := [] }

/-- Storage in which the cache directory exists and holds nothing. -/
def emptyCache : FileSystem :=
  fun p => if p = "cache" ∨ p = "." then some (.dir 4096) else none

/-! ## Vocabulary of the specification -/

/-- The specification's `ceil(S / C)`. -/
def ceilDiv (S C : Nat) : Nat := (S + C - 1) / C

/-- Chunk payloads of the responses to `chunk_index = 0 .. n-1`, concatenated in
index order. -/
def concatChunks (serve : P2PRequest → Served) (filename : String) (n : Nat) : List Byte :=
  ((List.range n).map
    (fun (k : Nat) => (serve ⟨"request_file", filename, (k : Int)⟩).response.ChunkData)).flatten

/-- Whether `path` names an entry directly inside the directory `base`: its
elements are those of the cleaned base followed by one name that is neither
empty nor `.` nor `..`. -/
def isDirectChild (base path : String) : Bool :=
  match (splitSep path.data).reverse with
  | [] => false
  | name :: dirRev =>
    decide (name ≠ [] ∧ name ≠ ['.'] ∧ name ≠ ['.', '.'])
      && decide (dirRev.reverse = splitSep (Clean base).data)

/-- The specification's `progress ∈ [0,100]`. -/
def F64.inPercentRange : F64 → Prop
  | .finite q => 0 ≤ q ∧ q ≤ 100
  | .posInf => False

/-- Every entry of the Status Registry has its progress in `[0,100]`. -/
def progressInRange (d : Daemon) : Prop :=
  ∀ g ds, d.downloads g = some ds → ds.Progress.inPercentRange

/-- The request the fetcher writes for chunk `chunkIndex` of `filename`. -/
def chunkRequest (filename : String) (chunkIndex : Nat) : P2PRequest :=
  { Action := "request_file", Filename := filename, ChunkIndex := chunkIndex }

/-- A file system holding the single regular file `data` at `path`. -/
def singleFile (path : String) (data : List Byte) : FileSystem :=
  fun p => if p = path then some (.file data true) else none

/-- The ten-byte file of the specification's concrete scenario. -/
def tenBytes : List Byte := [0, 1, 2, 3, 4, 5, 6, 7, 8, 9]

/-- A daemon that has enqueued `a.bin` and whose cache now holds the file. -/
def cachedWorld : World :=
  { Daemon.DownloadAndSeed (initialWorld emptyCache) "a.bin" 0 with
    fs := singleFile "cache/a.bin" tenBytes }

/-- Follows the specification's words ("written to the destination file at the
position implied by chunk_index"): a positional write of `chunk` at byte offset
`offset` of a file holding `content`; bytes before and after the written range
are kept, a gap before the offset is filled with zero bytes. -/
def writeAt (content : List Byte) (offset : Nat) (chunk : List Byte) : List Byte :=
  content.take offset ++ List.replicate (offset - content.length) 0 ++ chunk
    ++ content.drop (offset + chunk.length)

/-- Follows the specification's words: the chunks numbered `k, k+1, ...` are
written in turn, chunk `k` at byte offset `k * chunkSize`. -/
def positionalWritesFrom (chunkSize : Nat) : Nat → List Byte → List (List Byte) → List Byte
  | _, content, [] => content
  | k, content, chunk :: rest =>
    positionalWritesFrom chunkSize (k + 1) (writeAt content (k * chunkSize) chunk) rest

/-- Follows the specification's words: the destination file after the chunks
`0, 1, ...` have been written into an empty file, chunk `k` at byte offset
`k * chunkSize`. -/
def positionalWrites (chunkSize : Nat) (chunks : List (List Byte)) : List Byte :=
  positionalWritesFrom chunkSize 0 [] chunks

/-- The chunk data the origin serves for chunks `0 .. n-1` of `filename`. -/
def originChunks (chunkSize : Nat) (fsOrigin : FileSystem) (filename : String) (n : Nat) :
    List (List Byte) :=
  (List.range n).map
    (fun k => (Server.handleFileRequest chunkSize fsOrigin (chunkRequest filename k)).response.ChunkData)

/-- A fresh daemon over an empty cache that has been asked for `a.bin`. -/
def enqueuedWorld : World := Daemon.DownloadAndSeed (initialWorld emptyCache) "a.bin" 0

/-- A daemon over an empty cache that was asked for `a.bin` twice, whose first
run for it failed on the `file_not_found` of an origin that stores nothing, and
that was then asked for `a.bin` a third time; the second request is still
queued. -/
def duplicateEnqueueWorld : World :=
  exec ChunkSize (initialWorld emptyCache)
    [.downloadAndSeed "a.bin" 0, .downloadAndSeed "a.bin" 1,
     .workerRun (originEnv ChunkSize (fun _ => none)) 2, .downloadAndSeed "a.bin" 3]

/-- A client daemon that has registered `a.bin` in its Seeder Registry. -/
def seedingDaemon : Daemon := Daemon.startSeeding NewDaemon "a.bin" 0

/-! ## Chunk server: auxiliary facts -/

theorem wrapInt64_of_range (x : Int) (h1 : -2 ^ 63 ≤ x) (h2 : x < 2 ^ 63) : wrapInt64 x = x := by
  unfold wrapInt64
  omega

theorem lt_ceilDiv_iff (S C k : Nat) (hC : 0 < C) : k < ceilDiv S C ↔ k * C < S := by
  unfold ceilDiv
  rw [Nat.lt_iff_add_one_le, Nat.le_div_iff_mul_le hC, Nat.add_mul]
  constructor <;> intro h <;> omega

theorem div_succ_eq_ceilDiv_iff (S C : Nat) (hC : 0 < C) : S / C + 1 = ceilDiv S C ↔ ¬ C ∣ S := by
  unfold ceilDiv
  have h1 := Nat.div_add_mod S C
  have h2 := Nat.mod_lt S hC
  have h3 : (S / C + 1) * C = C * (S / C) + C := by ring
  have h4 : (S / C + 1 + 1) * C = C * (S / C) + C + C := by ring
  rw [Nat.dvd_iff_mod_eq_zero]
  constructor
  · intro h h0
    have h5 : (S + C - 1) / C = S / C := by
      apply Nat.div_eq_of_lt_le
      · have := Nat.mul_comm (S / C) C
        omega
      · omega
    omega
  · intro h
    symm
    apply Nat.div_eq_of_lt_le <;> omega

/-- The wrapped offset of chunk `k` is `k * C` as long as it does not pass the
end of a file whose size fits an `int64`. -/
theorem offset_of_le (C k S : Nat) (hk : k * C ≤ S) (hS : S + 1 < 2 ^ 63) :
    wrapInt64 ((k : Int) * (C : Int)) = ((k * C : Nat) : Int) := by
  rw [wrapInt64_of_range]
  · push_cast; rfl
  · have : (0 : Int) ≤ (k : Int) * (C : Int) := by positivity
    omega
  · have : ((k * C : Nat) : Int) ≤ (S : Int) := by exact_mod_cast hk
    push_cast at this
    omega

theorem totalChunks_of_size (C S : Nat) (hS : S + 1 < 2 ^ 63) :
    wrapInt64 ((S : Int) / (C : Int) + 1) = ((S / C + 1 : Nat) : Int) := by
  have h1 : ((S : Int) / (C : Int)) = ((S / C : Nat) : Int) := by norm_cast
  have h2 : S / C ≤ S := Nat.div_le_self S C
  rw [h1]
  generalize S / C = q at h2
  rw [wrapInt64_of_range] <;> omega

/-- The origin's answer for a readable regular file and a non-negative offset. -/
theorem Server.handleFileRequest_file (C : Nat) (fs : FileSystem) (req : P2PRequest)
    (data : List Byte)
    (hfile : fs (Join Server.UploadDir (Base req.Filename)) = some (.file data true))
    (hoff : 0 ≤ wrapInt64 (req.ChunkIndex * C)) :
    (Server.handleFileRequest C fs req).response =
      { Status := "success",
        ChunkData := (data.drop (wrapInt64 (req.ChunkIndex * C)).toNat).take C,
        ChunkIndex := req.ChunkIndex,
        TotalChunks := wrapInt64 ((data.length : Int) / C + 1),
        Error := "" } := by
  simp only [Server.handleFileRequest, hfile, Node.canOpen, Node.size, Node.readAt]
  simp [not_lt.mpr hoff]

/-- The client daemon's answer for a readable regular file and a non-negative offset. -/
theorem Daemon.sendFileChunk_file (C : Nat) (fs : FileSystem) (req : P2PRequest)
    (data : List Byte)
    (hfile : fs (Join Daemon.CacheDir (Base req.Filename)) = some (.file data true))
    (hoff : 0 ≤ wrapInt64 (req.ChunkIndex * C)) :
    (Daemon.sendFileChunk C fs req).response =
      { Status := "success",
        ChunkData := (data.drop (wrapInt64 (req.ChunkIndex * C)).toNat).take C,
        ChunkIndex := req.ChunkIndex,
        TotalChunks := wrapInt64 ((data.length : Int) / C + 1),
        Error := "" } := by
  simp only [Daemon.sendFileChunk, hfile, Node.canOpen, Node.size, Node.readAt]
  simp [not_lt.mpr hoff]

/-- Concatenating the first `n` windows of width `C` gives the first `n * C` bytes. -/
theorem flatten_windows (C : Nat) (data : List Byte) (n : Nat) :
    ((List.range n).map (fun k => (data.drop (k * C)).take C)).flatten = data.take (n * C) := by
  induction n with
  | zero => simp
  | succ n ih =>
    rw [List.range_succ, List.map_append, List.flatten_append, ih, Nat.succ_mul, List.take_add]
    simp

/-! ## Fetcher: one pass through the loop body -/

namespace Daemon

theorem downloadLoop_exit (C : Nat) (env : Env) (f dp : String) (ci : Nat) (tc : Int)
    (w w' : World) (ok : Bool) (h : loopBody C env f dp ci tc w = .exit w' ok) :
    downloadLoop C env f dp ci tc w = (w', ok) := by
  rw [downloadLoop]
  split
  · rename_i h2; rw [h] at h2; cases h2; rfl
  · rename_i h2; rw [h] at h2; cases h2

theorem downloadLoop_again (C : Nat) (env : Env) (f dp : String) (ci : Nat) (tc : Int)
    (w w' : World) (ci' : Nat) (tc' : Int)
    (h : loopBody C env f dp ci tc w = .again ci' tc' w') :
    downloadLoop C env f dp ci tc w = downloadLoop C env f dp ci' tc' w' := by
  rw [downloadLoop]
  split
  · rename_i h2; rw [h] at h2; cases h2
  · rename_i h2; rw [h] at h2; cases h2; rfl

/-- Every pass writes exactly one request, the one for the current chunk index. -/
theorem loopBody_sent (C : Nat) (env : Env) (f dp : String) (ci : Nat) (tc : Int) (w : World) :
    (loopBody C env f dp ci tc w).world.sent = w.sent ++ [chunkRequest f ci] := by
  simp only [loopBody, chunkRequest]
  split
  · rfl
  · rfl
  · split_ifs <;> rfl

/-- A pass changes neither the queue, nor the Seeder Registry, nor the history. -/
theorem loopBody_frame (C : Nat) (env : Env) (f dp : String) (ci : Nat) (tc : Int) (w : World) :
    (loopBody C env f dp ci tc w).world.d.downloadQueue = w.d.downloadQueue
    ∧ (loopBody C env f dp ci tc w).world.d.activeSeeders = w.d.activeSeeders
    ∧ (loopBody C env f dp ci tc w).world.history = w.history := by
  have hp : ∀ (d : Daemon) (k : Nat) (t : Int),
      (publishProgress C d f k t).downloadQueue = d.downloadQueue
      ∧ (publishProgress C d f k t).activeSeeders = d.activeSeeders := by
    intro d k t
    unfold publishProgress
    split <;> exact ⟨rfl, rfl⟩
  simp only [loopBody]
  split
  · exact ⟨rfl, rfl, rfl⟩
  · exact ⟨rfl, rfl, rfl⟩
  · split_ifs
    all_goals first
      | exact ⟨rfl, rfl, rfl⟩
      | exact ⟨(hp _ _ _).1, (hp _ _ _).2, rfl⟩

/-- When the loop is entered again, the chunk index has grown by one and is
below the total, which is the one already known or, when none was known, the one
of the response just received. -/
theorem loopBody_again (C : Nat) (env : Env) (f dp : String) (ci : Nat) (tc : Int)
    (w w' : World) (ci' : Nat) (tc' : Int)
    (h : loopBody C env f dp ci tc w = .again ci' tc' w') :
    ci' = ci + 1 ∧ (ci' : Int) < tc' ∧ (tc ≠ 0 → tc' = tc)
    ∧ (tc = 0 → ∃ r, env.peer ci (chunkRequest f ci) = .response r ∧ tc' = r.TotalChunks) := by
  simp only [loopBody] at h
  cases hp : env.peer ci { Action := "request_file", Filename := f, ChunkIndex := ci } with
  | sendFailed => simp [hp] at h
  | recvFailed => simp [hp] at h
  | response response =>
    simp only [hp] at h
    split_ifs at h
    all_goals
      cases h
      refine ⟨rfl, by omega, ?_, ?_⟩
      · intro hne
        first | rfl | exact absurd ‹tc = 0› hne
      · intro h0
        first
          | exact ⟨response, hp, rfl⟩
          | exact absurd h0 ‹¬ tc = 0›

/-- A pass that returns leaves the chunk index within the total when it returns
`nil` only at the last chunk. -/
theorem loopBody_exit_true (C : Nat) (env : Env) (f dp : String) (ci : Nat) (tc : Int)
    (w w' : World) (h : loopBody C env f dp ci tc w = .exit w' true) :
    ∃ r, env.peer ci (chunkRequest f ci) = .response r ∧ r.Status ≠ "error"
      ∧ ((ci + 1 : Nat) : Int) ≥ (if tc = 0 then r.TotalChunks else tc) := by
  simp only [loopBody] at h
  cases hp : env.peer ci { Action := "request_file", Filename := f, ChunkIndex := ci } with
  | sendFailed => simp [hp] at h
  | recvFailed => simp [hp] at h
  | response response =>
    simp only [hp] at h
    split_ifs at h
    all_goals first
      | (simp at h; done)
      | (refine ⟨response, hp, by assumption, ?_⟩; split_ifs; assumption)

/-- An error response ends the run at once. -/
theorem loopBody_error (C : Nat) (env : Env) (f dp : String) (ci : Nat) (tc : Int) (w : World)
    (r : P2PResponse) (hp : env.peer ci (chunkRequest f ci) = .response r)
    (he : r.Status = "error") :
    loopBody C env f dp ci tc w = .exit { w with sent := w.sent ++ [chunkRequest f ci] } false := by
  simp only [chunkRequest] at hp
  simp only [loopBody, hp, he, if_true, chunkRequest]

/-- A pass in which nothing fails. -/
theorem loopBody_ok (C : Nat) (env : Env) (f dp : String) (ci : Nat) (tc : Int) (w : World)
    (r : P2PResponse) (hp : env.peer ci (chunkRequest f ci) = .response r)
    (he : r.Status ≠ "error") (hw : env.writeOk ci = true) (hs : env.streamOk (ci + 1) = true) :
    loopBody C env f dp ci tc w =
      (if ((ci + 1 : Nat) : Int) ≥ (if tc = 0 then r.TotalChunks else tc) then
        .exit { w with
          sent := w.sent ++ [chunkRequest f ci],
          fs := appendFile w.fs dp r.ChunkData,
          d := publishProgress C w.d f ci (if tc = 0 then r.TotalChunks else tc) } true
      else
        .again (ci + 1) (if tc = 0 then r.TotalChunks else tc)
          { w with
            sent := w.sent ++ [chunkRequest f ci],
            fs := appendFile w.fs dp r.ChunkData,
            d := publishProgress C w.d f ci (if tc = 0 then r.TotalChunks else tc) }) := by
  simp only [chunkRequest] at hp
  simp only [loopBody, hp, he, hw, hs, if_false, chunkRequest, Bool.true_eq_false]

/-- A pass keeps the set of filenames that have a Status Registry entry. -/
theorem loopBody_downloads_isSome (C : Nat) (env : Env) (f dp : String) (ci : Nat) (tc : Int)
    (w : World) (g : String) :
    ((loopBody C env f dp ci tc w).world.d.downloads g).isSome = (w.d.downloads g).isSome := by
  have hp : ∀ (d : Daemon) (k : Nat) (t : Int),
      ((publishProgress C d f k t).downloads g).isSome = (d.downloads g).isSome := by
    intro d k t
    unfold publishProgress
    split
    · rename_i status hst
      by_cases hg : g = f
      · subst hg; simp [hst]
      · simp [Function.update_noteq hg]
    · rfl
  simp only [loopBody]
  split
  · rfl
  · rfl
  · split_ifs
    all_goals first
      | rfl
      | exact hp _ _ _

/-! ## Fetcher: the whole loop -/

/-- The loop changes neither the queue, nor the Seeder Registry, nor the history,
and keeps the set of filenames that have a Status Registry entry. -/
theorem downloadLoop_frame (C : Nat) (env : Env) (f dp : String) (ci : Nat) (tc : Int)
    (w : World) :
    (downloadLoop C env f dp ci tc w).1.d.downloadQueue = w.d.downloadQueue
    ∧ (downloadLoop C env f dp ci tc w).1.d.activeSeeders = w.d.activeSeeders
    ∧ (downloadLoop C env f dp ci tc w).1.history = w.history
    ∧ ∀ g, ((downloadLoop C env f dp ci tc w).1.d.downloads g).isSome
        = (w.d.downloads g).isSome := by
  induction ci, tc, w using downloadLoop.induct C env f dp with
  | case1 ci tc w w' ok h =>
    have h1 := loopBody_frame C env f dp ci tc w
    have h2 := loopBody_downloads_isSome C env f dp ci tc w
    rw [downloadLoop_exit C env f dp ci tc w w' ok h]
    rw [h] at h1 h2
    exact ⟨h1.1, h1.2.1, h1.2.2, h2⟩
  | case2 ci tc w ci' tc' w' h ih =>
    have h1 := loopBody_frame C env f dp ci tc w
    have h2 := loopBody_downloads_isSome C env f dp ci tc w
    rw [downloadLoop_again C env f dp ci tc w w' ci' tc' h]
    rw [h] at h1 h2
    simp only [LoopStep.world] at h1 h2
    refine ⟨ih.1.trans h1.1, ih.2.1.trans h1.2.1, ih.2.2.1.trans h1.2.2, ?_⟩
    intro g
    rw [ih.2.2.2 g, h2 g]

/-- The requests written by the loop, entered at chunk index `ci` with the total
`T` either already known or announced by the response to the request for `ci`:
they are the requests for `ci, ci+1, ..., ci+n-1` with `1 ≤ n` and `ci + n ≤ T`;
when nothing fails, `n = T - ci` and the loop returns `nil`. -/
theorem downloadLoop_requests (C : Nat) (env : Env) (f dp : String) (ci : Nat) (tc : Int)
    (w : World) (T : Int) (hlt : (ci : Int) < T) (htc : tc = 0 ∨ tc = T)
    (hfirst : tc = 0 → ∃ r, env.peer ci (chunkRequest f ci) = .response r ∧ r.TotalChunks = T) :
    ∃ n : Nat, 1 ≤ n ∧ ((ci + n : Nat) : Int) ≤ T
      ∧ (downloadLoop C env f dp ci tc w).1.sent
          = w.sent ++ (List.range' ci n).map (chunkRequest f)
      ∧ ((∀ i, env.writeOk i = true ∧ env.streamOk i = true
              ∧ ∃ r, env.peer i (chunkRequest f i) = .response r ∧ r.Status = "success")
          → n = (T - ci).toNat ∧ (downloadLoop C env f dp ci tc w).2 = true) := by
  induction ci, tc, w using downloadLoop.induct C env f dp with
  | case1 ci tc w w' ok h =>
    have hs := loopBody_sent C env f dp ci tc w
    rw [h] at hs
    simp only [LoopStep.world] at hs
    rw [downloadLoop_exit C env f dp ci tc w w' ok h]
    refine ⟨1, le_refl 1, by push_cast; omega, by simpa using hs, ?_⟩
    intro hall
    obtain ⟨hw, -, r, hr, hst⟩ := hall ci
    have hs1 := (hall (ci + 1)).2.1
    have hne : r.Status ≠ "error" := by rw [hst]; decide
    have heff : (if tc = 0 then r.TotalChunks else tc) = T := by
      split_ifs with h0
      · obtain ⟨r', hr', hT⟩ := hfirst h0
        rw [hr] at hr'
        cases hr'
        exact hT
      · rcases htc with h1 | h1
        · exact absurd h1 h0
        · exact h1
    rw [loopBody_ok C env f dp ci tc w r hr hne hw hs1, heff] at h
    split_ifs at h with hge
    cases h
    refine ⟨?_, rfl⟩
    push_cast at hge
    omega
  | case2 ci tc w ci' tc' w' h ih =>
    have hs := loopBody_sent C env f dp ci tc w
    rw [h] at hs
    simp only [LoopStep.world] at hs
    obtain ⟨hci, hlt', hkeep, hlearn⟩ := loopBody_again C env f dp ci tc w w' ci' tc' h
    have htc' : tc' = T := by
      by_cases h0 : tc = 0
      · obtain ⟨r, hr, hT⟩ := hfirst h0
        obtain ⟨r', hr', hT'⟩ := hlearn h0
        rw [hr] at hr'
        cases hr'
        rw [hT', hT]
      · rw [hkeep h0]
        rcases htc with h1 | h1
        · exact absurd h1 h0
        · exact h1
    have hne : tc' ≠ 0 := by
      have : (0 : Int) ≤ (ci' : Int) := Int.ofNat_nonneg _
      omega
    obtain ⟨n, hn1, hn2, hsent, hall⟩ :=
      ih (by rw [← htc']; exact hlt') (Or.inr htc') (fun h0 => absurd h0 hne)
    rw [downloadLoop_again C env f dp ci tc w w' ci' tc' h]
    subst hci
    refine ⟨n + 1, by omega, by push_cast at hn2 ⊢; omega, ?_, ?_⟩
    · rw [hsent, hs, List.range'_succ]
      simp
    · intro hok
      obtain ⟨hn, hres⟩ := hall hok
      refine ⟨?_, hres⟩
      push_cast at hn hlt' ⊢
      omega

/-! ## Registries -/

theorem updateDownloadStatus_frame (d : Daemon) (f st : String) (p : F64) (now : Nat) :
    (updateDownloadStatus d f st p now).downloadQueue = d.downloadQueue
    ∧ (updateDownloadStatus d f st p now).activeSeeders = d.activeSeeders
    ∧ ∀ g, ((updateDownloadStatus d f st p now).downloads g).isSome
        = (d.downloads g).isSome := by
  unfold updateDownloadStatus
  split
  · rename_i ds hds
    refine ⟨rfl, rfl, ?_⟩
    intro g
    by_cases hg : g = f
    · subst hg; simp [hds]
    · simp [Function.update_noteq hg]
  · exact ⟨rfl, rfl, fun _ => rfl⟩

theorem updateDownloadStatus_entry (d : Daemon) (f st : String) (p : F64) (now : Nat)
    (ds : DownloadStatus) (h : d.downloads f = some ds) :
    (updateDownloadStatus d f st p now).downloads f =
      some { ds with
        Status := st,
        Progress := p,
        CompletedAt := if st = "completed" then some now else ds.CompletedAt } := by
  simp [updateDownloadStatus, h]

theorem updateDownloadStatus_none (d : Daemon) (f st : String) (p : F64) (now : Nat)
    (h : d.downloads f = none) : updateDownloadStatus d f st p now = d := by
  simp [updateDownloadStatus, h]

theorem startSeeding_seeders (d : Daemon) (f : String) (now : Nat) (g : String) :
    (startSeeding d f now).activeSeeders g = if g = f then some true else d.activeSeeders g := by
  unfold startSeeding
  rw [(updateDownloadStatus_frame _ f "seeding" (.finite 100) now).2.1]
  by_cases hg : g = f
  · subst hg; simp
  · simp [Function.update_noteq hg, hg]

theorem startSeeding_frame (d : Daemon) (f : String) (now : Nat) :
    (startSeeding d f now).downloadQueue = d.downloadQueue
    ∧ ∀ g, ((startSeeding d f now).downloads g).isSome = (d.downloads g).isSome := by
  unfold startSeeding
  have h := updateDownloadStatus_frame
    { d with activeSeeders := Function.update d.activeSeeders f (some true) } f "seeding"
    (.finite 100) now
  exact ⟨h.1, h.2.2⟩

theorem startSeeding_entry (d : Daemon) (f : String) (now : Nat) (ds : DownloadStatus)
    (h : d.downloads f = some ds) :
    (startSeeding d f now).downloads f =
      some { ds with Status := "seeding", Progress := .finite 100 } := by
  have h1 := updateDownloadStatus_entry
    { d with activeSeeders := Function.update d.activeSeeders f (some true) } f "seeding"
    (.finite 100) now ds h
  simpa [startSeeding] using h1

theorem startSeeding_none (d : Daemon) (f : String) (now : Nat) (h : d.downloads f = none) :
    (startSeeding d f now).downloads f = none := by
  have h1 := updateDownloadStatus_none
    { d with activeSeeders := Function.update d.activeSeeders f (some true) } f "seeding"
    (.finite 100) now h
  unfold startSeeding
  rw [h1]
  exact h

/-! ## Fetcher: a whole run -/

/-- The run changes neither the queue, nor the Seeder Registry, nor the history,
and keeps the set of filenames that have a Status Registry entry. -/
theorem performDownload_frame (C : Nat) (env : Env) (w : World) (f : String) :
    (performDownload C env w f).1.d.downloadQueue = w.d.downloadQueue
    ∧ (performDownload C env w f).1.d.activeSeeders = w.d.activeSeeders
    ∧ (performDownload C env w f).1.history = w.history
    ∧ ∀ g, ((performDownload C env w f).1.d.downloads g).isSome = (w.d.downloads g).isSome := by
  by_cases hs : env.streamOk 0 = false
  · simp [performDownload, hs]
  · cases hc : createFile w.fs (Join CacheDir f) env.createOk with
    | none => simp [performDownload, hs, hc]
    | some fs' =>
      have hrun : performDownload C env w f
          = downloadLoop C env f (Join CacheDir f) 0 0 { w with fs := fs' } := by
        simp [performDownload, hs, hc]
      rw [hrun]
      exact downloadLoop_frame C env f (Join CacheDir f) 0 0 { w with fs := fs' }

/-- The requests of a run whose first response announces `T ≥ 1` chunks. -/
theorem performDownload_requests (C : Nat) (env : Env) (w : World) (f : String) (T : Int)
    (hT : 1 ≤ T) (r0 : P2PResponse)
    (h0 : env.peer 0 (chunkRequest f 0) = .response r0) (hT0 : r0.TotalChunks = T)
    (hs : env.streamOk 0 = true) (fs' : FileSystem)
    (hc : createFile w.fs (Join CacheDir f) env.createOk = some fs') :
    ∃ n : Nat, 1 ≤ n ∧ (n : Int) ≤ T
      ∧ (performDownload C env w f).1.sent = w.sent ++ (List.range n).map (chunkRequest f)
      ∧ ((∀ i, env.writeOk i = true ∧ env.streamOk i = true
              ∧ ∃ r, env.peer i (chunkRequest f i) = .response r ∧ r.Status = "success")
          → n = T.toNat ∧ (performDownload C env w f).2 = true) := by
  obtain ⟨n, hn1, hn2, hsent, hall⟩ :=
    downloadLoop_requests C env f (Join CacheDir f) 0 0 { w with fs := fs' } T
      (by simpa using hT) (Or.inl rfl) (fun _ => ⟨r0, h0, hT0⟩)
  have hrun : performDownload C env w f
      = downloadLoop C env f (Join CacheDir f) 0 0 { w with fs := fs' } := by
    simp [performDownload, hs, hc]
  rw [hrun]
  refine ⟨n, hn1, by simpa using hn2, ?_, ?_⟩
  · rw [hsent, List.range_eq_range']
  · intro hok
    obtain ⟨h1, h2⟩ := hall hok
    exact ⟨by simpa using h1, h2⟩

/-- A run whose first response is an error: one request, nothing written but
the created file. -/
theorem performDownload_first_error (C : Nat) (env : Env) (w : World) (f : String)
    (r0 : P2PResponse) (h0 : env.peer 0 (chunkRequest f 0) = .response r0)
    (he : r0.Status = "error") (hs : env.streamOk 0 = true) (fs' : FileSystem)
    (hc : createFile w.fs (Join CacheDir f) env.createOk = some fs') :
    performDownload C env w f
      = ({ w with fs := fs', sent := w.sent ++ [chunkRequest f 0] }, false) := by
  have hrun : performDownload C env w f
      = downloadLoop C env f (Join CacheDir f) 0 0 { w with fs := fs' } := by
    simp [performDownload, hs, hc]
  rw [hrun, downloadLoop_exit C env f (Join CacheDir f) 0 0 _ _ false
    (loopBody_error C env f (Join CacheDir f) 0 0 _ r0 h0 he)]

/-- The worker on a non-empty queue. -/
theorem downloadWorker_cons (C : Nat) (env : Env) (now : Nat) (w : World) (f : String)
    (rest : List String) (hq : w.d.downloadQueue = f :: rest) :
    downloadWorker C env now w =
      (if (performDownload C env { w with d := { w.d with downloadQueue := rest } } f).2 then
        { (performDownload C env { w with d := { w.d with downloadQueue := rest } } f).1 with
          d := startSeeding (updateDownloadStatus
            (performDownload C env { w with d := { w.d with downloadQueue := rest } } f).1.d
            f "completed" (.finite 100) now) f now,
          history :=
            (performDownload C env { w with d := { w.d with downloadQueue := rest } } f).1.history
              ++ [.runSucceeded f] }
      else
        { (performDownload C env { w with d := { w.d with downloadQueue := rest } } f).1 with
          d := updateDownloadStatus
            (performDownload C env { w with d := { w.d with downloadQueue := rest } } f).1.d
            f "error" (.finite 0) now,
          history :=
            (performDownload C env { w with d := { w.d with downloadQueue := rest } } f).1.history
              ++ [.runFailed f] }) := by
  simp only [downloadWorker, hq]

/-- The worker on a run whose first response is an error. -/
theorem downloadWorker_first_error (C : Nat) (env : Env) (now : Nat) (w : World) (f : String)
    (rest : List String) (r0 : P2PResponse) (fs' : FileSystem)
    (hq : w.d.downloadQueue = f :: rest)
    (h0 : env.peer 0 (chunkRequest f 0) = .response r0) (he : r0.Status = "error")
    (hs : env.streamOk 0 = true)
    (hc : createFile w.fs (Join CacheDir f) env.createOk = some fs') :
    downloadWorker C env now w =
      { d := updateDownloadStatus { w.d with downloadQueue := rest } f "error" (.finite 0) now,
        fs := fs',
        sent := w.sent ++ [chunkRequest f 0],
        history := w.history ++ [.runFailed f] } := by
  have hrun := performDownload_first_error C env
    { w with d := { w.d with downloadQueue := rest } } f r0 h0 he hs fs' hc
  rw [downloadWorker_cons C env now w f rest hq, hrun]
  simp

end Daemon

/-! ## Invariants of the transition system -/

/-- Registration leaves a trace: one step keeps "a registered filename has a
successful run or a cache hit in the history". -/
theorem step_seeded (C : Nat) (w : World) (e : Event)
    (hinv : ∀ f, w.d.activeSeeders f = some true →
      .runSucceeded f ∈ w.history ∨ .foundInCache f ∈ w.history) :
    ∀ f, (step C w e).d.activeSeeders f = some true →
      .runSucceeded f ∈ (step C w e).history ∨ .foundInCache f ∈ (step C w e).history := by
  intro f
  cases e with
  | downloadAndSeed g now =>
    simp only [step, Daemon.DownloadAndSeed]
    cases hfs : w.fs (Join Daemon.CacheDir g) with
    | none => exact hinv f
    | some node =>
      simp only [Daemon.startSeeding_seeders]
      by_cases hg : f = g
      · intro _
        right
        simp [hg]
      · simp only [hg, if_false]
        intro h
        rcases hinv f h with h1 | h1
        · left; exact List.mem_append_left _ h1
        · right; exact List.mem_append_left _ h1
  | workerRun env now =>
    simp only [step]
    cases hq : w.d.downloadQueue with
    | nil =>
      simp only [Daemon.downloadWorker, hq]
      exact hinv f
    | cons g rest =>
      rw [Daemon.downloadWorker_cons C env now w g rest hq]
      have hfr := Daemon.performDownload_frame C env
        { w with d := { w.d with downloadQueue := rest } } g
      split_ifs with hok
      · simp only [Daemon.startSeeding_seeders,
          (Daemon.updateDownloadStatus_frame _ g "completed" (.finite 100) now).2.1, hfr.2.1,
          hfr.2.2.1]
        by_cases hg : f = g
        · intro _
          left
          simp [hg]
        · simp only [hg, if_false]
          intro h
          rcases hinv f h with h1 | h1
          · left; exact List.mem_append_left _ h1
          · right; exact List.mem_append_left _ h1
      · simp only [(Daemon.updateDownloadStatus_frame _ g "error" (.finite 0) now).2.1, hfr.2.1,
          hfr.2.2.1]
        intro h
        rcases hinv f h with h1 | h1
        · left; exact List.mem_append_left _ h1
        · right; exact List.mem_append_left _ h1

/-- Every queued filename has a Status Registry entry: kept by one step. -/
theorem step_queue_entries (C : Nat) (w : World) (e : Event)
    (hinv : ∀ g ∈ w.d.downloadQueue, (w.d.downloads g).isSome = true) :
    ∀ g ∈ (step C w e).d.downloadQueue, ((step C w e).d.downloads g).isSome = true := by
  cases e with
  | downloadAndSeed f now =>
    simp only [step, Daemon.DownloadAndSeed]
    cases hfs : w.fs (Join Daemon.CacheDir f) with
    | some node =>
      intro g hg
      simp only [(Daemon.startSeeding_frame w.d f now).1] at hg
      simp only [(Daemon.startSeeding_frame w.d f now).2]
      exact hinv g hg
    | none =>
      intro g hg
      simp only [List.mem_append, List.mem_singleton] at hg
      by_cases hgf : g = f
      · subst hgf; simp
      · simp only [Function.update_noteq hgf]
        rcases hg with h1 | h1
        · exact hinv g h1
        · exact absurd h1 hgf
  | workerRun env now =>
    simp only [step]
    cases hq : w.d.downloadQueue with
    | nil =>
      simp only [Daemon.downloadWorker, hq]
      intro g hg
      cases hg
    | cons f rest =>
      rw [Daemon.downloadWorker_cons C env now w f rest hq]
      have hfr := Daemon.performDownload_frame C env
        { w with d := { w.d with downloadQueue := rest } } f
      have hrest : ∀ g ∈ rest, (w.d.downloads g).isSome = true := by
        intro g hg
        exact hinv g (by rw [hq]; exact List.mem_cons_of_mem _ hg)
      split_ifs with hok
      · intro g hg
        simp only [(Daemon.startSeeding_frame _ f now).1,
          (Daemon.updateDownloadStatus_frame _ f "completed" (.finite 100) now).1, hfr.1] at hg
        simp only [(Daemon.startSeeding_frame _ f now).2,
          (Daemon.updateDownloadStatus_frame _ f "completed" (.finite 100) now).2.2, hfr.2.2.2]
        exact hrest g hg
      · intro g hg
        simp only [(Daemon.updateDownloadStatus_frame _ f "error" (.finite 0) now).1, hfr.1] at hg
        simp only [(Daemon.updateDownloadStatus_frame _ f "error" (.finite 0) now).2.2, hfr.2.2.2]
        exact hrest g hg

theorem exec_append_one (C : Nat) (w : World) (events : List Event) (e : Event) :
    exec C w (events ++ [e]) = step C (exec C w events) e := by
  simp [exec, List.foldl_append]

/-- In every reachable world a registered filename has a successful run or a
cache hit in the history. -/
theorem exec_seeded (C : Nat) (fs0 : FileSystem) (events : List Event) :
    ∀ f, (exec C (initialWorld fs0) events).d.activeSeeders f = some true →
      .runSucceeded f ∈ (exec C (initialWorld fs0) events).history
        ∨ .foundInCache f ∈ (exec C (initialWorld fs0) events).history := by
  induction events using List.reverseRecOn with
  | nil =>
    intro f h
    simp [exec, initialWorld, NewDaemon] at h
  | append_singleton events e ih =>
    rw [exec_append_one]
    exact step_seeded C _ e ih

/-- In every reachable world every queued filename has a Status Registry entry. -/
theorem exec_queue_entries (C : Nat) (fs0 : FileSystem) (events : List Event) :
    ∀ g ∈ (exec C (initialWorld fs0) events).d.downloadQueue,
      ((exec C (initialWorld fs0) events).d.downloads g).isSome = true := by
  induction events using List.reverseRecOn with
  | nil =>
    intro g hg
    simp [exec, initialWorld, NewDaemon] at hg
  | append_singleton events e ih =>
    rw [exec_append_one]
    exact step_queue_entries C _ e ih

theorem uploads_a_bin : Join Server.UploadDir (Base "a.bin") = "uploads/a.bin" := by decide

theorem cache_a_bin : Join Daemon.CacheDir (Base "a.bin") = "cache/a.bin" := by decide

/-! ## C1: total_chunks -/

/-- C1 (defect of the code): for a stored file of exactly `ChunkSize` bytes the
origin's `handleFileRequest` and the client daemon's `sendFileChunk` both put
`total_chunks = 2` in their success response, whereas `ceil(S / C) = 1`; for the
empty file they report 1, whereas `ceil(0 / C) = 0`. -/
theorem total_chunks_at_exact_multiple :
    (Server.handleFileRequest ChunkSize
        (singleFile "uploads/a.bin" (List.replicate ChunkSize 0))
        ⟨"request_file", "a.bin", 0⟩).response.TotalChunks = 2
    ∧ (Daemon.sendFileChunk ChunkSize
        (singleFile "cache/a.bin" (List.replicate ChunkSize 0))
        ⟨"request_file", "a.bin", 0⟩).response.TotalChunks = 2
    ∧ ceilDiv ChunkSize ChunkSize = 1
    ∧ (Server.handleFileRequest ChunkSize (singleFile "uploads/a.bin" [])
        ⟨"request_file", "a.bin", 0⟩).response.TotalChunks = 1
    ∧ (Daemon.sendFileChunk ChunkSize (singleFile "cache/a.bin" [])
        ⟨"request_file", "a.bin", 0⟩).response.TotalChunks = 1
    ∧ ceilDiv 0 ChunkSize = 0 := by
  have hoff : (0 : Int) ≤ wrapInt64 ((0 : Int) * (ChunkSize : Nat)) := by
    simp [wrapInt64]
  have hsz : wrapInt64 (((ChunkSize : Nat) : Int) / ((ChunkSize : Nat) : Int) + 1) = 2 := by
    simp [wrapInt64, ChunkSize]
  have hsz0 : wrapInt64 (((0 : Nat) : Int) / ((ChunkSize : Nat) : Int) + 1) = 1 := by
    simp [wrapInt64, ChunkSize]
  refine ⟨?_, ?_, ?_, ?_, ?_, ?_⟩
  · rw [Server.handleFileRequest_file ChunkSize _ _ (List.replicate ChunkSize 0)
      (by simp [singleFile, uploads_a_bin]) hoff]
    simpa using hsz
  · rw [Daemon.sendFileChunk_file ChunkSize _ _ (List.replicate ChunkSize 0)
      (by simp [singleFile, cache_a_bin]) hoff]
    simpa using hsz
  · simp [ceilDiv, ChunkSize]
  · rw [Server.handleFileRequest_file ChunkSize _ _ []
      (by simp [singleFile, uploads_a_bin]) hoff]
    simpa using hsz0
  · rw [Daemon.sendFileChunk_file ChunkSize _ _ []
      (by simp [singleFile, cache_a_bin]) hoff]
    simpa using hsz0
  · simp [ceilDiv, ChunkSize]

/-! ## C2: length of a chunk -/

/-- C2: for a readable stored file of size `S` (fitting an `int64`), chunk size
`C > 0` and chunk index `k < ceil(S / C)`, the origin's `handleFileRequest` and
the client daemon's `sendFileChunk` both answer `request_file` for chunk `k`
with status success and exactly `min(C, S - k * C)` bytes of chunk data. -/
theorem chunk_data_length (C : Nat) (hC : 0 < C) (fsO fsD : FileSystem) (filename : String)
    (data : List Byte) (k : Nat) (hS : data.length + 1 < 2 ^ 63)
    (hO : fsO (Join Server.UploadDir (Base filename)) = some (.file data true))
    (hD : fsD (Join Daemon.CacheDir (Base filename)) = some (.file data true))
    (hk : k < ceilDiv data.length C) :
    ((Server.handleFileRequest C fsO ⟨"request_file", filename, k⟩).response.Status = "success"
      ∧ (Server.handleFileRequest C fsO ⟨"request_file", filename, k⟩).response.ChunkData.length
          = min C (data.length - k * C))
    ∧ ((Daemon.sendFileChunk C fsD ⟨"request_file", filename, k⟩).response.Status = "success"
      ∧ (Daemon.sendFileChunk C fsD ⟨"request_file", filename, k⟩).response.ChunkData.length
          = min C (data.length - k * C)) := by
  have hlt : k * C < data.length := (lt_ceilDiv_iff _ _ _ hC).mp hk
  have hoff := offset_of_le C k data.length hlt.le hS
  have hnn : (0 : Int) ≤ wrapInt64 ((k : Int) * (C : Int)) := by
    rw [hoff]; exact Int.ofNat_nonneg _
  constructor
  · rw [Server.handleFileRequest_file C fsO ⟨"request_file", filename, k⟩ data hO hnn]
    simp only [hoff, Int.toNat_ofNat, List.length_take, List.length_drop, and_self, true_and]
  · rw [Daemon.sendFileChunk_file C fsD ⟨"request_file", filename, k⟩ data hD hnn]
    simp only [hoff, Int.toNat_ofNat, List.length_take, List.length_drop, and_self, true_and]

/-- C2, concrete scenario: with `C = 4` and the ten-byte file `a.bin`, chunk 2
is served with exactly 2 bytes by both roles. -/
theorem chunk_data_length_witness :
    ((Server.handleFileRequest 4 (singleFile "uploads/a.bin" tenBytes)
        ⟨"request_file", "a.bin", (2 : Nat)⟩).response.Status = "success"
      ∧ (Server.handleFileRequest 4 (singleFile "uploads/a.bin" tenBytes)
        ⟨"request_file", "a.bin", (2 : Nat)⟩).response.ChunkData.length
          = min 4 (tenBytes.length - 2 * 4))
    ∧ ((Daemon.sendFileChunk 4 (singleFile "cache/a.bin" tenBytes)
        ⟨"request_file", "a.bin", (2 : Nat)⟩).response.Status = "success"
      ∧ (Daemon.sendFileChunk 4 (singleFile "cache/a.bin" tenBytes)
        ⟨"request_file", "a.bin", (2 : Nat)⟩).response.ChunkData.length
          = min 4 (tenBytes.length - 2 * 4)) :=
  chunk_data_length 4 (by decide) (singleFile "uploads/a.bin" tenBytes)
    (singleFile "cache/a.bin" tenBytes) "a.bin" tenBytes 2 (by simp [tenBytes]) (by decide)
    (by decide) (by decide)

/-! ## C3: round trip -/

/-- C3: for a readable stored file (of a size fitting an `int64`) and chunk size
`C > 0`, concatenating in index order the chunk data of the responses to
`chunk_index = 0 .. total_chunks - 1`, with `total_chunks` the value the server
reports in its response, reproduces the file content; this holds for the origin's
`handleFileRequest` and for the client daemon's `sendFileChunk`. -/
theorem chunks_round_trip (C : Nat) (hC : 0 < C) (fsO fsD : FileSystem) (filename : String)
    (data : List Byte) (hS : data.length + 1 < 2 ^ 63)
    (hO : fsO (Join Server.UploadDir (Base filename)) = some (.file data true))
    (hD : fsD (Join Daemon.CacheDir (Base filename)) = some (.file data true)) :
    concatChunks (Server.handleFileRequest C fsO) filename
        (Server.handleFileRequest C fsO ⟨"request_file", filename, 0⟩).response.TotalChunks.toNat
      = data
    ∧ concatChunks (Daemon.sendFileChunk C fsD) filename
        (Daemon.sendFileChunk C fsD ⟨"request_file", filename, 0⟩).response.TotalChunks.toNat
      = data := by
  have h0 : (0 : Int) ≤ wrapInt64 ((0 : Int) * (C : Int)) := by simp [wrapInt64]
  have htot := totalChunks_of_size C data.length hS
  have hcover : data.length ≤ (data.length / C + 1) * C := by
    have h1 := Nat.div_add_mod data.length C
    have h2 := Nat.mod_lt data.length hC
    have h3 : (data.length / C + 1) * C = C * (data.length / C) + C := by ring
    omega
  have key : ∀ k ∈ List.range (data.length / C + 1),
      wrapInt64 ((k : Int) * (C : Int)) = ((k * C : Nat) : Int) := by
    intro k hk
    have hk1 : k ≤ data.length / C := Nat.lt_succ_iff.mp (List.mem_range.mp hk)
    have hk2 : k * C ≤ data.length := (Nat.le_div_iff_mul_le hC).mp hk1
    exact offset_of_le C k data.length hk2 hS
  constructor
  · rw [Server.handleFileRequest_file C fsO ⟨"request_file", filename, 0⟩ data hO h0]
    simp only [htot, Int.toNat_ofNat, concatChunks]
    refine Eq.trans ?_ (List.take_of_length_le hcover)
    refine Eq.trans ?_ (flatten_windows C data (data.length / C + 1))
    apply congrArg List.flatten
    apply List.map_congr_left
    intro k hk
    have hoff := key k hk
    rw [Server.handleFileRequest_file C fsO ⟨"request_file", filename, k⟩ data hO
      (by rw [hoff]; exact Int.ofNat_nonneg _)]
    simp only [hoff, Int.toNat_ofNat]
  · rw [Daemon.sendFileChunk_file C fsD ⟨"request_file", filename, 0⟩ data hD h0]
    simp only [htot, Int.toNat_ofNat, concatChunks]
    refine Eq.trans ?_ (List.take_of_length_le hcover)
    refine Eq.trans ?_ (flatten_windows C data (data.length / C + 1))
    apply congrArg List.flatten
    apply List.map_congr_left
    intro k hk
    have hoff := key k hk
    rw [Daemon.sendFileChunk_file C fsD ⟨"request_file", filename, k⟩ data hD
      (by rw [hoff]; exact Int.ofNat_nonneg _)]
    simp only [hoff, Int.toNat_ofNat]

/-- C3 on the concrete scenario: the three chunks of the ten-byte file, served
with `C = 4`, concatenate to the file. -/
theorem chunks_round_trip_witness :
    concatChunks (Server.handleFileRequest 4 (singleFile "uploads/a.bin" tenBytes)) "a.bin"
        (Server.handleFileRequest 4 (singleFile "uploads/a.bin" tenBytes)
          ⟨"request_file", "a.bin", 0⟩).response.TotalChunks.toNat
      = tenBytes
    ∧ concatChunks (Daemon.sendFileChunk 4 (singleFile "cache/a.bin" tenBytes)) "a.bin"
        (Daemon.sendFileChunk 4 (singleFile "cache/a.bin" tenBytes)
          ⟨"request_file", "a.bin", 0⟩).response.TotalChunks.toNat
      = tenBytes :=
  chunks_round_trip 4 (by decide) (singleFile "uploads/a.bin" tenBytes)
    (singleFile "cache/a.bin" tenBytes) "a.bin" tenBytes (by simp [tenBytes]) (by decide)
    (by decide)

/-! ## C4: what is registered as seedable -/

/-- C4 (defect of the code): from an empty cache, `DownloadAndSeed "a.bin"`, a
worker run that fails on the origin's `file_not_found`, and a second
`DownloadAndSeed "a.bin"` leave `a.bin` registered in the Seeder Registry although
its only download run failed: `performDownload` creates the destination file
before the first chunk and leaves it behind, and the second call takes that
empty file for a file "already in the cache". -/
theorem registered_after_failed_run :
    (exec ChunkSize (initialWorld emptyCache)
      [.downloadAndSeed "a.bin" 0, .workerRun (originEnv ChunkSize (fun _ => none)) 1,
       .downloadAndSeed "a.bin" 2]).d.activeSeeders "a.bin" = some true
    ∧ (exec ChunkSize (initialWorld emptyCache)
      [.downloadAndSeed "a.bin" 0, .workerRun (originEnv ChunkSize (fun _ => none)) 1,
       .downloadAndSeed "a.bin" 2]).history = [.runFailed "a.bin", .foundInCache "a.bin"] := by
  have hrun := Daemon.performDownload_first_error ChunkSize (originEnv ChunkSize (fun _ => none))
    { (Daemon.DownloadAndSeed (initialWorld emptyCache) "a.bin" 0) with
      d := { (Daemon.DownloadAndSeed (initialWorld emptyCache) "a.bin" 0).d with
        downloadQueue := [] } }
    "a.bin" (sendP2PError "file_not_found") rfl rfl rfl
    (Function.update emptyCache "cache/a.bin" (some (.file [] true))) rfl
  have hw := Daemon.downloadWorker_cons ChunkSize (originEnv ChunkSize (fun _ => none)) 1
    (Daemon.DownloadAndSeed (initialWorld emptyCache) "a.bin" 0) "a.bin" [] (by decide)
  rw [hrun] at hw
  simp only [exec, List.foldl, step]
  rw [hw]
  constructor
  · decide
  · decide

/-- Every registration leaves a trace: in every world reachable from a fresh
daemon by `DownloadAndSeed` calls and worker runs, a filename that is registered
in the Seeder Registry has in the history a download run that returned without
error or a `DownloadAndSeed` call that found an entry at its cache path. -/
theorem registered_only_after_success_or_cache_hit (C : Nat) (fs0 : FileSystem)
    (events : List Event) (f : String)
    (h : (exec C (initialWorld fs0) events).d.activeSeeders f = some true) :
    .runSucceeded f ∈ (exec C (initialWorld fs0) events).history
      ∨ .foundInCache f ∈ (exec C (initialWorld fs0) events).history :=
  exec_seeded C fs0 events f h

/-- The trace of a registration, on a daemon that finds `a.bin` in its cache. -/
theorem registered_only_after_success_or_cache_hit_witness :
    Happened.runSucceeded "a.bin" ∈
        (exec ChunkSize (initialWorld (singleFile "cache/a.bin" tenBytes))
          [.downloadAndSeed "a.bin" 0]).history
      ∨ Happened.foundInCache "a.bin" ∈
        (exec ChunkSize (initialWorld (singleFile "cache/a.bin" tenBytes))
          [.downloadAndSeed "a.bin" 0]).history :=
  registered_only_after_success_or_cache_hit ChunkSize (singleFile "cache/a.bin" tenBytes)
    [.downloadAndSeed "a.bin" 0] "a.bin" (by decide)

/-! ## C5: seeding authorization -/

/-- C5: for every decoded request whose filename is not mapped to `true` in the
Seeder Registry, `handleIncomingP2PRequest` writes the error response
`file_not_available` and makes no file-system call. -/
theorem unregistered_file_not_available (C : Nat) (d : Daemon) (fs : FileSystem)
    (req : P2PRequest) (h : d.activeSeeders req.Filename ≠ some true) :
    Daemon.handleIncomingP2PRequest C d fs (some req)
      = some ⟨{ Status := "error", ChunkData := [], ChunkIndex := 0, TotalChunks := 0,
                Error := "file_not_available" }, []⟩ := by
  have hget : (d.activeSeeders req.Filename).getD false = false := by
    cases hv : d.activeSeeders req.Filename with
    | none => rfl
    | some b =>
      cases b with
      | false => rfl
      | true => exact absurd hv h
  simp [Daemon.handleIncomingP2PRequest, hget, sendP2PError]

/-- C5 on the specification's example: a fresh daemon holding `x.mp4` on disk
but not in its Seeder Registry. -/
theorem unregistered_file_not_available_witness :
    Daemon.handleIncomingP2PRequest ChunkSize NewDaemon (singleFile "cache/x.mp4" tenBytes)
        (some ⟨"request_file", "x.mp4", 0⟩)
      = some ⟨{ Status := "error", ChunkData := [], ChunkIndex := 0, TotalChunks := 0,
                Error := "file_not_available" }, []⟩ :=
  unregistered_file_not_available ChunkSize NewDaemon (singleFile "cache/x.mp4" tenBytes)
    ⟨"request_file", "x.mp4", 0⟩ (by decide)

/-! ## C6: the path that is opened -/

/-- C6 (defect of the code): for the request filename `..` both roles resolve
the path `.`, the parent of their base directory, and for the empty filename the
base directory itself; neither is an entry inside the base directory, and both
handlers do stat, open, seek and read the path `.` when it exists. An ordinary
name, with or without leading directories, does resolve to a direct child. -/
theorem base_name_leaves_base_directory :
    Join Server.UploadDir (Base "..") = "."
    ∧ (Server.handleFileRequest ChunkSize emptyCache ⟨"request_file", "..", 0⟩).fsTrace
        = [.osStat ".", .osOpen ".", .fileSeek "." 0, .fileRead "." ChunkSize]
    ∧ (Daemon.sendFileChunk ChunkSize emptyCache ⟨"request_file", "..", 0⟩).fsTrace
        = [.osStat ".", .osOpen ".", .fileSeek "." 0, .fileRead "." ChunkSize]
    ∧ Join Daemon.CacheDir (Base "..") = "."
    ∧ Join Server.UploadDir (Base "") = "uploads"
    ∧ Join Daemon.CacheDir (Base "") = "cache"
    ∧ isDirectChild Server.UploadDir (Join Server.UploadDir (Base "..")) = false
    ∧ isDirectChild Daemon.CacheDir (Join Daemon.CacheDir (Base "..")) = false
    ∧ isDirectChild Server.UploadDir (Join Server.UploadDir (Base "")) = false
    ∧ isDirectChild Daemon.CacheDir (Join Daemon.CacheDir (Base "")) = false
    ∧ isDirectChild Server.UploadDir (Join Server.UploadDir (Base "../../etc/passwd")) = true
    ∧ isDirectChild Daemon.CacheDir (Join Daemon.CacheDir (Base "a.bin")) = true := by
  decide

/-! ## C7: order of the chunk requests -/

/-- C7: in a run of `performDownload` that gets past `NewStream` and `os.Create`
and whose first response reports `total_chunks = T ≥ 1`: when every exchange
yields a success response (whatever total the later ones report) and no local
write or stream opening fails, the run returns `nil` and the requests written are
exactly those for chunk indices `0, 1, ..., T-1`, in this order; and in every
case, also when a later exchange fails, the requests written are those for
`0, 1, ..., n-1` with `1 ≤ n ≤ T`, so that no index `≥ T` is ever requested. -/
theorem requests_in_index_order (C : Nat) (env : Env) (w : World) (f : String) (T : Int)
    (hT : 1 ≤ T) (r0 : P2PResponse)
    (h0 : env.peer 0 (chunkRequest f 0) = .response r0) (hT0 : r0.TotalChunks = T)
    (hs : env.streamOk 0 = true) (fs' : FileSystem)
    (hc : createFile w.fs (Join Daemon.CacheDir f) env.createOk = some fs') :
    ((∀ i, env.writeOk i = true ∧ env.streamOk i = true
          ∧ ∃ r, env.peer i (chunkRequest f i) = .response r ∧ r.Status = "success")
      → (Daemon.performDownload C env w f).2 = true
        ∧ (Daemon.performDownload C env w f).1.sent
            = w.sent ++ (List.range T.toNat).map (chunkRequest f))
    ∧ ∃ n : Nat, 1 ≤ n ∧ (n : Int) ≤ T
        ∧ (Daemon.performDownload C env w f).1.sent
            = w.sent ++ (List.range n).map (chunkRequest f) := by
  obtain ⟨n, hn1, hn2, hsent, hall⟩ :=
    Daemon.performDownload_requests C env w f T hT r0 h0 hT0 hs fs' hc
  refine ⟨?_, n, hn1, hn2, hsent⟩
  intro hok
  obtain ⟨hn, hres⟩ := hall hok
  exact ⟨hres, by rw [hsent, hn]⟩

/-- C7 on the concrete scenario: with `T = 3` announced by the first response
(and 1000 by the later ones) the requests are those for 0, 1, 2. -/
theorem requests_in_index_order_witness :
    (Daemon.performDownload 4 (steadyEnv 3) (initialWorld emptyCache) "a.bin").2 = true
    ∧ (Daemon.performDownload 4 (steadyEnv 3) (initialWorld emptyCache) "a.bin").1.sent
        = (initialWorld emptyCache).sent
          ++ (List.range (3 : Int).toNat).map (chunkRequest "a.bin") :=
  (requests_in_index_order 4 (steadyEnv 3) (initialWorld emptyCache) "a.bin" 3 (by decide)
    { Status := "success", ChunkData := [], ChunkIndex := 0, TotalChunks := 3, Error := "" }
    rfl rfl rfl (Function.update emptyCache "cache/a.bin" (some (.file [] true))) rfl).1
    (fun _ => ⟨rfl, rfl, _, rfl, rfl⟩)

/-! ## C8: a successful run ends in seeding -/

/-- C8: in every world reachable from a fresh daemon (so that the queued
filenames were enqueued by `DownloadAndSeed`), when the worker takes the filename
`f` from the queue and its run of `performDownload` returns without error, the
resulting world has `f` mapped to `true` in the Seeder Registry and the
`DownloadStatus` of `f` has status `seeding`, progress 100 and `CompletedAt` set
(to the time of completion). -/
theorem successful_run_ends_seeding (C : Nat) (fs0 : FileSystem) (events : List Event)
    (env : Env) (now : Nat) (f : String) (rest : List String)
    (hq : (exec C (initialWorld fs0) events).d.downloadQueue = f :: rest)
    (hok : (Daemon.performDownload C env
      { (exec C (initialWorld fs0) events) with
        d := { (exec C (initialWorld fs0) events).d with downloadQueue := rest } } f).2 = true) :
    (Daemon.downloadWorker C env now (exec C (initialWorld fs0) events)).d.activeSeeders f
      = some true
    ∧ ∃ ds, (Daemon.downloadWorker C env now (exec C (initialWorld fs0) events)).d.downloads f
        = some ds
      ∧ ds.Status = "seeding" ∧ ds.Progress = .finite 100 ∧ ds.CompletedAt = some now := by
  have hentry := exec_queue_entries C fs0 events f (by rw [hq]; exact List.mem_cons_self _ _)
  have hfr := Daemon.performDownload_frame C env
    { (exec C (initialWorld fs0) events) with
      d := { (exec C (initialWorld fs0) events).d with downloadQueue := rest } } f
  rw [Daemon.downloadWorker_cons C env now _ f rest hq]
  simp only [hok, if_true]
  constructor
  · simp [Daemon.startSeeding_seeders]
  · have h1 := hfr.2.2.2 f
    simp only [hentry] at h1
    obtain ⟨ds, hds⟩ := Option.isSome_iff_exists.mp h1
    have h2 := Daemon.updateDownloadStatus_entry _ f "completed" (.finite 100) now ds hds
    have h3 := Daemon.startSeeding_entry _ f now _ h2
    exact ⟨_, h3, rfl, rfl, by simp⟩

/-- C8 on a run: `a.bin` is enqueued on a fresh daemon and fetched in one chunk. -/
theorem successful_run_ends_seeding_witness :
    (Daemon.downloadWorker 4 (steadyEnv 1) 9
      (exec 4 (initialWorld emptyCache) [.downloadAndSeed "a.bin" 0])).d.activeSeeders "a.bin"
      = some true
    ∧ ∃ ds, (Daemon.downloadWorker 4 (steadyEnv 1) 9
        (exec 4 (initialWorld emptyCache) [.downloadAndSeed "a.bin" 0])).d.downloads "a.bin"
        = some ds
      ∧ ds.Status = "seeding" ∧ ds.Progress = .finite 100 ∧ ds.CompletedAt = some 9 := by
  obtain ⟨n, -, -, -, hall⟩ := Daemon.performDownload_requests 4 (steadyEnv 1)
    { (exec 4 (initialWorld emptyCache) [.downloadAndSeed "a.bin" 0]) with
      d := { (exec 4 (initialWorld emptyCache) [.downloadAndSeed "a.bin" 0]).d with
        downloadQueue := [] } }
    "a.bin" 1 (by decide)
    { Status := "success", ChunkData := [], ChunkIndex := 0, TotalChunks := 1, Error := "" }
    rfl rfl rfl (Function.update emptyCache "cache/a.bin" (some (.file [] true))) rfl
  exact successful_run_ends_seeding 4 emptyCache [.downloadAndSeed "a.bin" 0] (steadyEnv 1) 9
    "a.bin" [] (by decide) (hall (fun _ => ⟨rfl, rfl, _, rfl, rfl⟩)).2

/-! ## C9: a file the origin does not have -/

/-- C9 as stated fails: in `duplicateEnqueueWorld` the filename `a.bin` is queued
and already registered in the Seeder Registry; the origin stores nothing, the
worker's run for `a.bin` writes one request, receives `file_not_found` and leaves
the status `error`, and `a.bin` is still in the Seeder Registry after the run. -/
theorem failed_run_keeps_registration :
    duplicateEnqueueWorld.d.downloadQueue = ["a.bin"]
    ∧ (Server.handleFileRequest ChunkSize (fun _ => none) (chunkRequest "a.bin" 0)).response
        = sendP2PError "file_not_found"
    ∧ (Daemon.downloadWorker ChunkSize (originEnv ChunkSize (fun _ => none)) 4
        duplicateEnqueueWorld).sent
        = duplicateEnqueueWorld.sent ++ [chunkRequest "a.bin" 0]
    ∧ ((Daemon.downloadWorker ChunkSize (originEnv ChunkSize (fun _ => none)) 4
        duplicateEnqueueWorld).d.downloads "a.bin").map (fun ds => ds.Status) = some "error"
    ∧ (Daemon.downloadWorker ChunkSize (originEnv ChunkSize (fun _ => none)) 4
        duplicateEnqueueWorld).d.activeSeeders "a.bin" = some true := by
  have e1 := Daemon.downloadWorker_first_error ChunkSize (originEnv ChunkSize (fun _ => none)) 2
    (Daemon.DownloadAndSeed (Daemon.DownloadAndSeed (initialWorld emptyCache) "a.bin" 0)
      "a.bin" 1)
    "a.bin" ["a.bin"] (sendP2PError "file_not_found")
    (Function.update emptyCache "cache/a.bin" (some (.file [] true)))
    (by decide) rfl rfl rfl rfl
  have hworld : duplicateEnqueueWorld = Daemon.DownloadAndSeed
      (Daemon.downloadWorker ChunkSize (originEnv ChunkSize (fun _ => none)) 2
        (Daemon.DownloadAndSeed (Daemon.DownloadAndSeed (initialWorld emptyCache) "a.bin" 0)
          "a.bin" 1)) "a.bin" 3 := rfl
  rw [e1] at hworld
  have e2 := Daemon.downloadWorker_first_error ChunkSize (originEnv ChunkSize (fun _ => none)) 4
    duplicateEnqueueWorld "a.bin" [] (sendP2PError "file_not_found")
    (Function.update (Function.update emptyCache "cache/a.bin" (some (.file [] true)))
      "cache/a.bin" (some (.file [] true)))
    (by rw [hworld]; decide) rfl rfl rfl (by rw [hworld]; rfl)
  rw [e2, hworld]
  refine ⟨by decide, by decide, rfl, by decide, by decide⟩

/-- C9, amended: when the origin has no entry at the path a filename resolves
to, its `handleFileRequest` answers every request for that filename with the
error response `file_not_found`; and in every reachable world, a worker run for
that filename which opens its stream, creates its destination file and receives
that answer writes exactly one request (the one for chunk 0), leaves the
`DownloadStatus` of the filename with status `error`, and does not change the
Seeder Registry: a filename not registered before the run is not registered
after it. -/
theorem absent_file_fails_in_one_round_trip (C : Nat) (fsOrigin fs0 : FileSystem)
    (events : List Event) (env : Env) (now : Nat) (f : String) (rest : List String)
    (fs' : FileSystem)
    (habsent : fsOrigin (Join Server.UploadDir (Base f)) = none)
    (hq : (exec C (initialWorld fs0) events).d.downloadQueue = f :: rest)
    (hs : env.streamOk 0 = true)
    (hc : createFile (exec C (initialWorld fs0) events).fs (Join Daemon.CacheDir f) env.createOk
      = some fs')
    (hpeer : env.peer 0 (chunkRequest f 0)
      = .response (Server.handleFileRequest C fsOrigin (chunkRequest f 0)).response) :
    (∀ req : P2PRequest, req.Filename = f →
      (Server.handleFileRequest C fsOrigin req).response
        = { Status := "error", ChunkData := [], ChunkIndex := 0, TotalChunks := 0,
            Error := "file_not_found" })
    ∧ (Daemon.downloadWorker C env now (exec C (initialWorld fs0) events)).sent
        = (exec C (initialWorld fs0) events).sent ++ [chunkRequest f 0]
    ∧ (∃ ds, (Daemon.downloadWorker C env now (exec C (initialWorld fs0) events)).d.downloads f
        = some ds ∧ ds.Status = "error")
    ∧ (Daemon.downloadWorker C env now (exec C (initialWorld fs0) events)).d.activeSeeders
        = (exec C (initialWorld fs0) events).d.activeSeeders
    ∧ ((exec C (initialWorld fs0) events).d.activeSeeders f ≠ some true →
        (Daemon.downloadWorker C env now (exec C (initialWorld fs0) events)).d.activeSeeders f
          ≠ some true) := by
  have hresp : ∀ req : P2PRequest, req.Filename = f →
      (Server.handleFileRequest C fsOrigin req).response = sendP2PError "file_not_found" := by
    intro req hreq
    simp [Server.handleFileRequest, hreq, habsent]
  have hentry := exec_queue_entries C fs0 events f (by rw [hq]; exact List.mem_cons_self _ _)
  obtain ⟨ds, hds⟩ := Option.isSome_iff_exists.mp hentry
  rw [hresp (chunkRequest f 0) rfl] at hpeer
  have hrun := Daemon.downloadWorker_first_error C env now (exec C (initialWorld fs0) events) f
    rest (sendP2PError "file_not_found") fs' hq hpeer rfl hs hc
  have hframe := (Daemon.updateDownloadStatus_frame
    { (exec C (initialWorld fs0) events).d with downloadQueue := rest } f "error" (.finite 0)
    now).2.1
  rw [hrun]
  refine ⟨fun req hreq => hresp req hreq, rfl, ?_, hframe, ?_⟩
  · have h2 := Daemon.updateDownloadStatus_entry
      { (exec C (initialWorld fs0) events).d with downloadQueue := rest } f "error" (.finite 0)
      now ds hds
    exact ⟨_, h2, rfl⟩
  · intro hbefore
    simp only [hframe]
    exact hbefore

/-- C9, amended, on a run: the origin stores nothing, `a.bin` is enqueued on a
fresh daemon and the worker runs against the origin; one request is written, the
status is `error` and `a.bin` is not registered. -/
theorem absent_file_fails_in_one_round_trip_witness :
    (Daemon.downloadWorker 4 (originEnv 4 (fun _ => none)) 9
        (exec 4 (initialWorld emptyCache) [.downloadAndSeed "a.bin" 0])).sent
        = (exec 4 (initialWorld emptyCache) [.downloadAndSeed "a.bin" 0]).sent
          ++ [chunkRequest "a.bin" 0]
    ∧ (∃ ds, (Daemon.downloadWorker 4 (originEnv 4 (fun _ => none)) 9
        (exec 4 (initialWorld emptyCache) [.downloadAndSeed "a.bin" 0])).d.downloads "a.bin"
        = some ds ∧ ds.Status = "error")
    ∧ (Daemon.downloadWorker 4 (originEnv 4 (fun _ => none)) 9
        (exec 4 (initialWorld emptyCache) [.downloadAndSeed "a.bin" 0])).d.activeSeeders "a.bin"
        ≠ some true :=
  have h := absent_file_fails_in_one_round_trip 4 (fun _ => none) emptyCache
    [.downloadAndSeed "a.bin" 0] (originEnv 4 (fun _ => none)) 9 "a.bin" []
    (Function.update emptyCache "cache/a.bin" (some (.file [] true))) rfl (by decide) rfl rfl
    rfl
  ⟨h.2.1, h.2.2.1, h.2.2.2.2 (by decide)⟩

/-! ## C10: a filename already in the cache -/

/-- C10 as stated fails: on a fresh daemon whose cache already holds `a.bin`,
`DownloadAndSeed "a.bin"` leaves the Status Registry without an entry for
`a.bin`, hence without the status `seeding`. -/
theorem cache_hit_creates_no_status :
    (initialWorld (singleFile "cache/a.bin" tenBytes)).fs (Join Daemon.CacheDir "a.bin")
      = some (.file tenBytes true)
    ∧ (Daemon.DownloadAndSeed (initialWorld (singleFile "cache/a.bin" tenBytes)) "a.bin"
        0).d.downloads "a.bin" = none := by
  decide

/-- C10, amended: when an entry exists at the cache path of the filename,
`DownloadAndSeed` leaves the queue and the requests written unchanged, maps the
filename to `true` in the Seeder Registry, and sets the status of the filename's
Status Registry entry to `seeding` if the filename has an entry; when it has
none, none is created. -/
theorem cache_hit_registers_without_network (w : World) (f : String) (now : Nat)
    (hcached : (w.fs (Join Daemon.CacheDir f)).isSome = true) :
    (Daemon.DownloadAndSeed w f now).d.downloadQueue = w.d.downloadQueue
    ∧ (Daemon.DownloadAndSeed w f now).sent = w.sent
    ∧ (Daemon.DownloadAndSeed w f now).d.activeSeeders f = some true
    ∧ (∀ ds, w.d.downloads f = some ds →
        ∃ ds', (Daemon.DownloadAndSeed w f now).d.downloads f = some ds'
          ∧ ds'.Status = "seeding")
    ∧ (w.d.downloads f = none → (Daemon.DownloadAndSeed w f now).d.downloads f = none) := by
  obtain ⟨node, hnode⟩ := Option.isSome_iff_exists.mp hcached
  have hrun : Daemon.DownloadAndSeed w f now
      = { w with
          d := Daemon.startSeeding w.d f now,
          history := w.history ++ [.foundInCache f] } := by
    simp only [Daemon.DownloadAndSeed, hnode]
  rw [hrun]
  refine ⟨(Daemon.startSeeding_frame w.d f now).1, rfl, ?_, ?_, ?_⟩
  · simp [Daemon.startSeeding_seeders]
  · intro ds hds
    exact ⟨_, Daemon.startSeeding_entry w.d f now ds hds, rfl⟩
  · intro hnone
    exact Daemon.startSeeding_none w.d f now hnone

/-- C10, amended, on a daemon that has a Status Registry entry for `a.bin` and
finds the file in its cache. -/
theorem cache_hit_registers_without_network_witness :
    (Daemon.DownloadAndSeed cachedWorld "a.bin" 5).d.downloadQueue = cachedWorld.d.downloadQueue
    ∧ (Daemon.DownloadAndSeed cachedWorld "a.bin" 5).sent = cachedWorld.sent
    ∧ (Daemon.DownloadAndSeed cachedWorld "a.bin" 5).d.activeSeeders "a.bin" = some true
    ∧ (∀ ds, cachedWorld.d.downloads "a.bin" = some ds →
        ∃ ds', (Daemon.DownloadAndSeed cachedWorld "a.bin" 5).d.downloads "a.bin" = some ds'
          ∧ ds'.Status = "seeding")
    ∧ (cachedWorld.d.downloads "a.bin" = none
        → (Daemon.DownloadAndSeed cachedWorld "a.bin" 5).d.downloads "a.bin" = none) :=
  cache_hit_registers_without_network cachedWorld "a.bin" 5 (by decide)

/-! ## C11: actions other than request_file -/

/-- The origin answers every decoded request whose action is not `request_file`
with `unknown_action`, without touching the file system. -/
theorem Server.handleP2PStream_unknown_action (C : Nat) (fs : FileSystem) (req : P2PRequest)
    (h : req.Action ≠ "request_file") :
    Server.handleP2PStream C fs (some req) = ⟨sendP2PError "unknown_action", []⟩ := by
  simp [Server.handleP2PStream, h]

/-- C11 (defect of the code): the client daemon's `handleIncomingP2PRequest`
never looks at the action. A request with action `delete` for the registered
file `a.bin` is answered with status success and the bytes of the file, and for
an unregistered file with `file_not_available`; the origin's `handleP2PStream`
answers the same request with `unknown_action`. -/
theorem client_serves_unknown_action :
    Daemon.handleIncomingP2PRequest ChunkSize seedingDaemon
        (singleFile "cache/a.bin" tenBytes) (some ⟨"delete", "a.bin", 0⟩)
      = some ⟨{ Status := "success", ChunkData := tenBytes, ChunkIndex := 0, TotalChunks := 1,
                Error := "" },
              [.osStat "cache/a.bin", .osOpen "cache/a.bin", .fileSeek "cache/a.bin" 0,
               .fileRead "cache/a.bin" ChunkSize]⟩
    ∧ Daemon.handleIncomingP2PRequest ChunkSize NewDaemon
        (singleFile "cache/a.bin" tenBytes) (some ⟨"delete", "a.bin", 0⟩)
      = some ⟨sendP2PError "file_not_available", []⟩
    ∧ Server.handleP2PStream ChunkSize (singleFile "uploads/a.bin" tenBytes)
        (some ⟨"delete", "a.bin", 0⟩)
      = ⟨sendP2PError "unknown_action", []⟩ := by
  decide

/-! ## C12: a seek that fails -/

/-- The origin answers `seek_error`, and reads nothing, whenever the entry can be
opened and the offset of the chunk is negative. -/
theorem Server.handleFileRequest_seek_error (C : Nat) (fs : FileSystem) (req : P2PRequest)
    (node : Node) (hnode : fs (Join Server.UploadDir (Base req.Filename)) = some node)
    (hopen : node.canOpen = true) (hneg : wrapInt64 (req.ChunkIndex * C) < 0) :
    (Server.handleFileRequest C fs req).response = sendP2PError "seek_error" := by
  simp [Server.handleFileRequest, hnode, hopen, hneg]

/-- C12 (defect of the code): the client daemon's `sendFileChunk` drops the
error of `file.Seek`. For `chunk_index = -1` on the stored file `a.bin` the seek
to offset `-ChunkSize` fails, yet the response, also through
`handleIncomingP2PRequest`, has status success and carries the bytes at the start
of the file; the origin's `handleFileRequest` answers the same request with
`seek_error`. -/
theorem client_ignores_failed_seek :
    Daemon.sendFileChunk ChunkSize (singleFile "cache/a.bin" tenBytes)
        ⟨"request_file", "a.bin", -1⟩
      = ⟨{ Status := "success", ChunkData := tenBytes, ChunkIndex := -1, TotalChunks := 1,
           Error := "" },
         [.osStat "cache/a.bin", .osOpen "cache/a.bin", .fileSeek "cache/a.bin" (-262144),
          .fileRead "cache/a.bin" ChunkSize]⟩
    ∧ (Daemon.handleIncomingP2PRequest ChunkSize seedingDaemon
        (singleFile "cache/a.bin" tenBytes) (some ⟨"request_file", "a.bin", -1⟩)).map
          (fun served => (served.response.Status, served.response.ChunkData))
      = some ("success", tenBytes)
    ∧ Server.handleFileRequest ChunkSize (singleFile "uploads/a.bin" tenBytes)
        ⟨"request_file", "a.bin", -1⟩
      = ⟨sendP2PError "seek_error",
         [.osStat "uploads/a.bin", .osOpen "uploads/a.bin",
          .fileSeek "uploads/a.bin" (-262144)]⟩ := by
  decide

/-! ## Fetcher: what each pass writes -/

namespace Daemon

theorem loopWorlds_exit (C : Nat) (env : Env) (f dp : String) (ci : Nat) (tc : Int)
    (w w' : World) (ok : Bool) (h : loopBody C env f dp ci tc w = .exit w' ok) :
    loopWorlds C env f dp ci tc w = [w'] := by
  rw [loopWorlds]
  split
  · rename_i h2; rw [h] at h2; cases h2; rfl
  · rename_i h2; rw [h] at h2; cases h2

theorem loopWorlds_again (C : Nat) (env : Env) (f dp : String) (ci : Nat) (tc : Int)
    (w w' : World) (ci' : Nat) (tc' : Int)
    (h : loopBody C env f dp ci tc w = .again ci' tc' w') :
    loopWorlds C env f dp ci tc w = w' :: loopWorlds C env f dp ci' tc' w' := by
  rw [loopWorlds]
  split
  · rename_i h2; rw [h] at h2; cases h2
  · rename_i h2; rw [h] at h2; cases h2; rfl

/-- The world in which the loop returns is the last of the worlds it went through. -/
theorem loopWorlds_getLast (C : Nat) (env : Env) (f dp : String) (ci : Nat) (tc : Int)
    (w : World) :
    (loopWorlds C env f dp ci tc w).getLast? = some (downloadLoop C env f dp ci tc w).1 := by
  induction ci, tc, w using downloadLoop.induct C env f dp with
  | case1 ci tc w w' ok h =>
    rw [loopWorlds_exit C env f dp ci tc w w' ok h, downloadLoop_exit C env f dp ci tc w w' ok h]
    rfl
  | case2 ci tc w ci' tc' w' h ih =>
    rw [loopWorlds_again C env f dp ci tc w w' ci' tc' h,
      downloadLoop_again C env f dp ci tc w w' ci' tc' h, ← ih]
    cases hl : loopWorlds C env f dp ci' tc' w' with
    | nil => rw [hl] at ih; cases ih
    | cons a l => rfl

/-- The registries after a pass: untouched, or the progress of the chunk just
written has been published, with the total known after the response. -/
theorem loopBody_d (C : Nat) (env : Env) (f dp : String) (ci : Nat) (tc : Int) (w : World) :
    (loopBody C env f dp ci tc w).world.d = w.d
    ∨ ∃ r, env.peer ci (chunkRequest f ci) = .response r ∧ r.Status ≠ "error"
        ∧ (loopBody C env f dp ci tc w).world.d
            = publishProgress C w.d f ci (if tc = 0 then r.TotalChunks else tc) := by
  simp only [loopBody, chunkRequest]
  cases hp : env.peer ci { Action := "request_file", Filename := f, ChunkIndex := ci } with
  | sendFailed => left; rfl
  | recvFailed => left; rfl
  | response response =>
    simp only []
    split_ifs
    all_goals first
      | (left; rfl)
      | (right; exact ⟨response, rfl, by assumption, rfl⟩)

theorem progressOf_inPercentRange (ci : Nat) (T : Int) (hlt : (ci : Int) < T) :
    (progressOf ci T).inPercentRange := by
  have hne : T ≠ 0 := by
    have : (0 : Int) ≤ (ci : Int) := Int.ofNat_nonneg _
    omega
  have hT : (0 : ℚ) < (T : ℚ) := by
    have : (0 : Int) < T := by
      have : (0 : Int) ≤ (ci : Int) := Int.ofNat_nonneg _
      omega
    exact_mod_cast this
  have hle : (ci : ℚ) + 1 ≤ (T : ℚ) := by
    have : (ci : Int) + 1 ≤ T := by omega
    exact_mod_cast this
  have hnn : (0 : ℚ) ≤ (ci : ℚ) + 1 := by positivity
  simp only [progressOf, hne, if_false, F64.inPercentRange]
  constructor
  · positivity
  · have h1 : ((ci : ℚ) + 1) / (T : ℚ) ≤ 1 := (div_le_one hT).mpr hle
    nlinarith

theorem publishProgress_progressInRange (C : Nat) (d : Daemon) (f : String) (ci : Nat)
    (t : Int) (hd : progressInRange d) (hp : (progressOf ci t).inPercentRange) :
    progressInRange (publishProgress C d f ci t) := by
  unfold publishProgress
  split
  · rename_i status hst
    intro g ds hg
    by_cases hgf : g = f
    · subst hgf
      simp only [Function.update_same, Option.some.injEq] at hg
      rw [← hg]
      exact hp
    · simp only [Function.update_noteq hgf] at hg
      exact hd g ds hg
  · exact hd

theorem updateDownloadStatus_progressInRange (d : Daemon) (f st : String) (p : F64)
    (now : Nat) (hd : progressInRange d) (hp : p.inPercentRange) :
    progressInRange (updateDownloadStatus d f st p now) := by
  unfold updateDownloadStatus
  split
  · rename_i status hst
    intro g ds hg
    by_cases hgf : g = f
    · subst hgf
      simp only [Function.update_same, Option.some.injEq] at hg
      rw [← hg]
      exact hp
    · simp only [Function.update_noteq hgf] at hg
      exact hd g ds hg
  · exact hd

theorem finite_zero_inPercentRange : (F64.finite 0).inPercentRange := by
  simp [F64.inPercentRange]

theorem finite_hundred_inPercentRange : (F64.finite 100).inPercentRange := by
  simp [F64.inPercentRange]

theorem startSeeding_progressInRange (d : Daemon) (f : String) (now : Nat)
    (hd : progressInRange d) : progressInRange (startSeeding d f now) := by
  unfold startSeeding
  exact updateDownloadStatus_progressInRange _ f "seeding" (.finite 100) now hd
    finite_hundred_inPercentRange

theorem DownloadAndSeed_progressInRange (w : World) (f : String) (now : Nat)
    (hd : progressInRange w.d) : progressInRange (DownloadAndSeed w f now).d := by
  cases hfs : w.fs (Join CacheDir f) with
  | some node =>
    simp only [DownloadAndSeed, hfs]
    exact startSeeding_progressInRange w.d f now hd
  | none =>
    simp only [DownloadAndSeed, hfs]
    intro g ds hg
    by_cases hgf : g = f
    · subst hgf
      simp only [Function.update_same, Option.some.injEq] at hg
      rw [← hg]
      exact finite_zero_inPercentRange
    · simp only [Function.update_noteq hgf] at hg
      exact hd g ds hg

/-- With the total `T` known, or announced by the response to the request for
`ci`, and `ci < T`, every pass of the loop leaves the progress of every entry in
`[0,100]`. -/
theorem loopWorlds_progressInRange (C : Nat) (env : Env) (f dp : String) (ci : Nat) (tc : Int)
    (w : World) (T : Int) (hlt : (ci : Int) < T) (htc : tc = 0 ∨ tc = T)
    (hfirst : tc = 0 → ∃ r, env.peer ci (chunkRequest f ci) = .response r ∧ r.TotalChunks = T)
    (hd : progressInRange w.d) :
    ∀ w' ∈ loopWorlds C env f dp ci tc w, progressInRange w'.d := by
  induction ci, tc, w using loopWorlds.induct C env f dp with
  | case1 ci tc w w1 ok h =>
    have hpass : progressInRange (loopBody C env f dp ci tc w).world.d := by
      rcases loopBody_d C env f dp ci tc w with h1 | ⟨r, hr, -, h1⟩
      · rw [h1]; exact hd
      · rw [h1]
        have heff : (if tc = 0 then r.TotalChunks else tc) = T := by
          split_ifs with h0
          · obtain ⟨r', hr', hT⟩ := hfirst h0
            rw [hr] at hr'
            cases hr'
            exact hT
          · rcases htc with h2 | h2
            · exact absurd h2 h0
            · exact h2
        rw [heff]
        exact publishProgress_progressInRange C w.d f ci T hd (progressOf_inPercentRange ci T hlt)
    rw [loopWorlds_exit C env f dp ci tc w w1 ok h]
    rw [h] at hpass
    intro w' hw'
    simp only [List.mem_singleton] at hw'
    rw [hw']
    exact hpass
  | case2 ci tc w ci' tc' w1 h ih =>
    have hpass : progressInRange (loopBody C env f dp ci tc w).world.d := by
      rcases loopBody_d C env f dp ci tc w with h1 | ⟨r, hr, -, h1⟩
      · rw [h1]; exact hd
      · rw [h1]
        have heff : (if tc = 0 then r.TotalChunks else tc) = T := by
          split_ifs with h0
          · obtain ⟨r', hr', hT⟩ := hfirst h0
            rw [hr] at hr'
            cases hr'
            exact hT
          · rcases htc with h2 | h2
            · exact absurd h2 h0
            · exact h2
        rw [heff]
        exact publishProgress_progressInRange C w.d f ci T hd (progressOf_inPercentRange ci T hlt)
    rw [h] at hpass
    simp only [LoopStep.world] at hpass
    obtain ⟨hci, hlt', hkeep, hlearn⟩ := loopBody_again C env f dp ci tc w w1 ci' tc' h
    have htc' : tc' = T := by
      by_cases h0 : tc = 0
      · obtain ⟨r, hr, hT⟩ := hfirst h0
        obtain ⟨r', hr', hT'⟩ := hlearn h0
        rw [hr] at hr'
        cases hr'
        rw [hT', hT]
      · rw [hkeep h0]
        rcases htc with h1 | h1
        · exact absurd h1 h0
        · exact h1
    have hne : tc' ≠ 0 := by
      have : (0 : Int) ≤ (ci' : Int) := Int.ofNat_nonneg _
      omega
    rw [loopWorlds_again C env f dp ci tc w w1 ci' tc' h]
    intro w' hw'
    rcases List.mem_cons.mp hw' with h1 | h1
    · rw [h1]; exact hpass
    · exact ih (by rw [← htc']; exact hlt') (Or.inr htc') (fun h0 => absurd h0 hne) hpass w' h1

/-- A run that gets a response other than an error announcing at most one chunk:
one pass, after which the function returns `nil`. -/
theorem performDownload_single_pass (C : Nat) (env : Env) (w : World) (f : String)
    (r0 : P2PResponse) (h0 : env.peer 0 (chunkRequest f 0) = .response r0)
    (he : r0.Status ≠ "error") (hT : r0.TotalChunks ≤ 1) (hw : env.writeOk 0 = true)
    (hs : env.streamOk 0 = true) (hs1 : env.streamOk 1 = true) (fs' : FileSystem)
    (hc : createFile w.fs (Join CacheDir f) env.createOk = some fs') :
    performDownload C env w f
      = ({ w with
            sent := w.sent ++ [chunkRequest f 0],
            fs := appendFile fs' (Join CacheDir f) r0.ChunkData,
            d := publishProgress C w.d f 0 r0.TotalChunks }, true) := by
  have hrun : performDownload C env w f
      = downloadLoop C env f (Join CacheDir f) 0 0 { w with fs := fs' } := by
    simp [performDownload, hs, hc]
  have hbody := loopBody_ok C env f (Join CacheDir f) 0 0 { w with fs := fs' } r0 h0 he hw hs1
  have hge : (((0 + 1 : Nat) : Int)) ≥ (if (0 : Int) = 0 then r0.TotalChunks else 0) := by
    simp only [if_true]
    push_cast
    omega
  rw [if_pos hge] at hbody
  rw [hrun, downloadLoop_exit C env f (Join CacheDir f) 0 0 _ _ true hbody]
  simp

end Daemon

/-! ## C13: range of the progress -/

/-- C13 as stated fails: when the first response reports `total_chunks = -1`,
`performDownload` writes the progress `-100` into the `DownloadStatus` of the
file; when it reports 0, the division is by zero and the progress is `+Inf`. -/
theorem progress_out_of_range_on_bad_total :
    ((Daemon.performDownload ChunkSize (steadyEnv (-1)) enqueuedWorld "a.bin").1.d.downloads
        "a.bin").map (fun ds => ds.Progress) = some (.finite (-100))
    ∧ ((Daemon.performDownload ChunkSize (steadyEnv 0) enqueuedWorld "a.bin").1.d.downloads
        "a.bin").map (fun ds => ds.Progress) = some .posInf := by
  have hp1 : progressOf 0 (-1) = .finite (-100) := by
    simp only [progressOf]
    norm_num
  have hp0 : progressOf 0 0 = .posInf := by
    simp [progressOf]
  have hentry : enqueuedWorld.d.downloads "a.bin"
      = some { Filename := "a.bin", Status := "downloading", Progress := .finite 0,
               BytesDownloaded := 0, TotalBytes := 0, PeersConnected := 1, StartedAt := 0,
               CompletedAt := none } := by
    decide
  constructor
  · rw [Daemon.performDownload_single_pass ChunkSize (steadyEnv (-1)) enqueuedWorld "a.bin"
      { Status := "success", ChunkData := [], ChunkIndex := 0, TotalChunks := -1, Error := "" }
      rfl (by decide) (by decide) rfl rfl rfl
      (Function.update emptyCache "cache/a.bin" (some (.file [] true))) rfl]
    simp [Daemon.publishProgress, hentry, hp1]
  · rw [Daemon.performDownload_single_pass ChunkSize (steadyEnv 0) enqueuedWorld "a.bin"
      { Status := "success", ChunkData := [], ChunkIndex := 0, TotalChunks := 0, Error := "" }
      rfl (by decide) (by decide) rfl rfl rfl
      (Function.update emptyCache "cache/a.bin" (some (.file [] true))) rfl]
    simp [Daemon.publishProgress, hentry, hp0]

/-- C13, amended: starting from registries whose progress values lie in
`[0,100]`, the values written by `DownloadAndSeed`, by `startSeeding`, by
`updateDownloadStatus` with the progress arguments its callers pass (0 and 100),
and, in a run whose first response reports `total_chunks = T ≥ 1`, by every pass
of the loop of `performDownload` (whatever the later responses report and
wherever the run ends) lie in `[0,100]`. Floating-point rounding is left out:
progress values are exact rationals. -/
theorem progress_within_percent_range (C : Nat) (env : Env) (w : World) (f dp st : String)
    (now : Nat) (T : Int) (r0 : P2PResponse) (hd : progressInRange w.d)
    (h0 : env.peer 0 (chunkRequest f 0) = .response r0) (hT0 : r0.TotalChunks = T)
    (hT : 1 ≤ T) :
    progressInRange (Daemon.DownloadAndSeed w f now).d
    ∧ progressInRange (Daemon.startSeeding w.d f now)
    ∧ progressInRange (Daemon.updateDownloadStatus w.d f st (.finite 0) now)
    ∧ progressInRange (Daemon.updateDownloadStatus w.d f st (.finite 100) now)
    ∧ (∀ w' ∈ Daemon.loopWorlds C env f dp 0 0 w, progressInRange w'.d)
    ∧ progressInRange (Daemon.performDownload C env w f).1.d := by
  have hloop : ∀ (dp' : String) (w0 : World), progressInRange w0.d →
      ∀ w' ∈ Daemon.loopWorlds C env f dp' 0 0 w0, progressInRange w'.d := by
    intro dp' w0 hw0
    exact Daemon.loopWorlds_progressInRange C env f dp' 0 0 w0 T (by simpa using hT)
      (Or.inl rfl) (fun _ => ⟨r0, h0, hT0⟩) hw0
  refine ⟨Daemon.DownloadAndSeed_progressInRange w f now hd,
    Daemon.startSeeding_progressInRange w.d f now hd,
    Daemon.updateDownloadStatus_progressInRange w.d f st _ now hd
      Daemon.finite_zero_inPercentRange,
    Daemon.updateDownloadStatus_progressInRange w.d f st _ now hd
      Daemon.finite_hundred_inPercentRange,
    hloop dp w hd, ?_⟩
  by_cases hs : env.streamOk 0 = false
  · simpa [Daemon.performDownload, hs] using hd
  · cases hc : createFile w.fs (Join Daemon.CacheDir f) env.createOk with
    | none => simpa [Daemon.performDownload, hs, hc] using hd
    | some fs' =>
      have hrun : Daemon.performDownload C env w f
          = Daemon.downloadLoop C env f (Join Daemon.CacheDir f) 0 0 { w with fs := fs' } := by
        simp [Daemon.performDownload, hs, hc]
      rw [hrun]
      exact hloop (Join Daemon.CacheDir f) { w with fs := fs' } hd _
        (List.mem_of_getLast?_eq_some (Daemon.loopWorlds_getLast C env f _ 0 0 _))

/-- C13, amended, on a run: `a.bin` is enqueued on a fresh daemon and fetched
from a peer that announces three chunks. -/
theorem progress_within_percent_range_witness :
    (∀ w' ∈ Daemon.loopWorlds 4 (steadyEnv 3) "a.bin" "cache/a.bin" 0 0 enqueuedWorld,
        progressInRange w'.d)
    ∧ progressInRange (Daemon.performDownload 4 (steadyEnv 3) enqueuedWorld "a.bin").1.d :=
  (progress_within_percent_range 4 (steadyEnv 3) enqueuedWorld "a.bin" "cache/a.bin"
    "error" 9 3
    { Status := "success", ChunkData := [], ChunkIndex := 0, TotalChunks := 3, Error := "" }
    (Daemon.DownloadAndSeed_progressInRange (initialWorld emptyCache) "a.bin" 0
      (by intro g ds hg; cases hg))
    rfl rfl (by decide)).2.2.2.2

/-! ## C14: bytes_downloaded -/

/-- C14 (defect of the code): fetching the ten-byte file `a.bin` from the origin
takes one chunk; `performDownload` returns `nil`, the destination file holds the
10 bytes transferred, and the `BytesDownloaded` published in the Status Registry
is `ChunkSize = 262144`: the value is `(chunkIndex + 1) * ChunkSize`, not the
number of bytes written. -/
theorem bytes_downloaded_counts_whole_chunks :
    (Daemon.performDownload ChunkSize
        (originEnv ChunkSize (singleFile "uploads/a.bin" tenBytes)) enqueuedWorld "a.bin").2
      = true
    ∧ (Daemon.performDownload ChunkSize
        (originEnv ChunkSize (singleFile "uploads/a.bin" tenBytes)) enqueuedWorld "a.bin").1.fs
        "cache/a.bin" = some (.file tenBytes true)
    ∧ ((Daemon.performDownload ChunkSize
        (originEnv ChunkSize (singleFile "uploads/a.bin" tenBytes)) enqueuedWorld
        "a.bin").1.d.downloads "a.bin").map (fun ds => ds.BytesDownloaded) = some 262144
    ∧ tenBytes.length = 10 := by
  have hentry : enqueuedWorld.d.downloads "a.bin"
      = some { Filename := "a.bin", Status := "downloading", Progress := .finite 0,
               BytesDownloaded := 0, TotalBytes := 0, PeersConnected := 1, StartedAt := 0,
               CompletedAt := none } := by
    decide
  rw [Daemon.performDownload_single_pass ChunkSize
    (originEnv ChunkSize (singleFile "uploads/a.bin" tenBytes)) enqueuedWorld "a.bin"
    { Status := "success", ChunkData := tenBytes, ChunkIndex := 0, TotalChunks := 1,
      Error := "" }
    rfl (by decide) (by decide) rfl rfl rfl
    (Function.update emptyCache "cache/a.bin" (some (.file [] true))) rfl]
  have hbytes' : wrapInt64 ((ChunkSize : Nat) : Int) = 262144 := by
    decide
  refine ⟨rfl, by decide, ?_, rfl⟩
  simp [Daemon.publishProgress, hentry, hbytes']

/-! ## Fetching from the origin -/

theorem writeAt_length (content chunk : List Byte) :
    writeAt content content.length chunk = content ++ chunk := by
  simp [writeAt]

theorem appendFile_same (fs : FileSystem) (path : String) (content chunk : List Byte)
    (readable : Bool) (h : fs path = some (.file content readable)) :
    appendFile fs path chunk path = some (.file (content ++ chunk) readable) := by
  simp [appendFile, h]

theorem originEnv_peer (C : Nat) (fsO : FileSystem) (f : String) (n k : Nat) :
    (originEnv C fsO).peer n (chunkRequest f k)
      = .response (Server.handleFileRequest C fsO (chunkRequest f k)).response := by
  simp [originEnv, Server.handleP2PStream, chunkRequest]

/-- What the origin answers to the fetcher's request for a chunk that starts
within a readable file (or at its end). -/
theorem origin_response (C : Nat) (fsO : FileSystem) (f : String) (data : List Byte)
    (hS : data.length + 1 < 2 ^ 63)
    (hO : fsO (Join Server.UploadDir (Base f)) = some (.file data true))
    (k : Nat) (hk : k * C ≤ data.length) :
    (Server.handleFileRequest C fsO (chunkRequest f k)).response =
      { Status := "success", ChunkData := (data.drop (k * C)).take C, ChunkIndex := k,
        TotalChunks := ((data.length / C + 1 : Nat) : Int), Error := "" } := by
  have hoff := offset_of_le C k data.length hk hS
  have hnn : (0 : Int) ≤ wrapInt64 ((chunkRequest f k).ChunkIndex * (C : Int)) := by
    simp only [chunkRequest]
    rw [hoff]
    exact Int.ofNat_nonneg _
  rw [Server.handleFileRequest_file C fsO (chunkRequest f k) data hO hnn]
  simp only [chunkRequest, hoff, Int.toNat_ofNat, totalChunks_of_size C data.length hS]

/-- Positional writes of the origin's chunks `k .. k+m-1` after the first `k * C`
bytes are in place give the first `(k + m) * C` bytes. -/
theorem positionalWritesFrom_origin (C : Nat) (hC : 0 < C) (fsO : FileSystem) (f : String)
    (data : List Byte) (hS : data.length + 1 < 2 ^ 63)
    (hO : fsO (Join Server.UploadDir (Base f)) = some (.file data true)) (m : Nat) :
    ∀ k, k + m ≤ data.length / C + 1 →
      positionalWritesFrom C k (data.take (k * C))
          ((List.range' k m).map
            (fun j => (Server.handleFileRequest C fsO (chunkRequest f j)).response.ChunkData))
        = data.take ((k + m) * C) := by
  induction m with
  | zero =>
    intro k _
    simp [positionalWritesFrom]
  | succ m ih =>
    intro k hk
    have hk1 : k ≤ data.length / C := by omega
    have hk2 : k * C ≤ data.length := (Nat.le_div_iff_mul_le hC).mp hk1
    have hlen : (data.take (k * C)).length = k * C := by
      rw [List.length_take]
      exact Nat.min_eq_left hk2
    have hwrite : writeAt (data.take (k * C)) (k * C) ((data.drop (k * C)).take C)
        = data.take ((k + 1) * C) := by
      have h1 := writeAt_length (data.take (k * C)) ((data.drop (k * C)).take C)
      rw [hlen] at h1
      rw [h1, Nat.add_mul, Nat.one_mul, List.take_add]
    rw [List.range'_succ, List.map_cons, positionalWritesFrom,
      origin_response C fsO f data hS hO k hk2]
    simp only []
    rw [hwrite, ih (k + 1) (by omega)]
    congr 2
    omega

theorem positionalWrites_origin (C : Nat) (hC : 0 < C) (fsO : FileSystem) (f : String)
    (data : List Byte) (hS : data.length + 1 < 2 ^ 63)
    (hO : fsO (Join Server.UploadDir (Base f)) = some (.file data true)) (n : Nat)
    (hn : n ≤ data.length / C + 1) :
    positionalWrites C (originChunks C fsO f n) = data.take (n * C) := by
  have h := positionalWritesFrom_origin C hC fsO f data hS hO n 0 (by omega)
  simp only [Nat.zero_mul, List.take_zero, Nat.zero_add] at h
  rw [positionalWrites, originChunks, List.range_eq_range']
  exact h

theorem take_all_chunks (C : Nat) (hC : 0 < C) (data : List Byte) :
    data.take ((data.length / C + 1) * C) = data := by
  apply List.take_of_length_le
  have h1 := Nat.div_add_mod data.length C
  have h2 := Nat.mod_lt data.length hC
  have h3 : (data.length / C + 1) * C = C * (data.length / C) + C := by ring
  omega

namespace Daemon

/-- The loop against the origin, entered at chunk `ci` with the first `ci * C`
bytes of the file in the destination: it returns `nil`, the destination ends up
holding the file, and after the pass for chunk `k` it holds the first
`(k + 1) * C` bytes. -/
theorem downloadLoop_origin (C : Nat) (hC : 0 < C) (fsO : FileSystem) (f dp : String)
    (data : List Byte) (hS : data.length + 1 < 2 ^ 63)
    (hO : fsO (Join Server.UploadDir (Base f)) = some (.file data true))
    (ci : Nat) (tc : Int) (w : World) (hle : ci ≤ data.length / C)
    (htc : tc = 0 ∨ tc = ((data.length / C + 1 : Nat) : Int))
    (hw : w.fs dp = some (.file (data.take (ci * C)) true)) :
    (downloadLoop C (originEnv C fsO) f dp ci tc w).2 = true
    ∧ (downloadLoop C (originEnv C fsO) f dp ci tc w).1.fs dp = some (.file data true)
    ∧ (loopWorlds C (originEnv C fsO) f dp ci tc w).map (fun w' => w'.fs dp)
        = (List.range' ci (data.length / C + 1 - ci)).map
            (fun k => some (.file (data.take ((k + 1) * C)) true)) := by
  induction ci, tc, w using downloadLoop.induct C (originEnv C fsO) f dp with
  | case1 ci tc w w1 ok h =>
    have hk2 : ci * C ≤ data.length := (Nat.le_div_iff_mul_le hC).mp hle
    have hr := origin_response C fsO f data hS hO ci hk2
    have hbody := loopBody_ok C (originEnv C fsO) f dp ci tc w _ (originEnv_peer C fsO f ci ci)
      (by rw [hr]; simp) rfl rfl
    have heff : (if tc = 0 then
        (Server.handleFileRequest C fsO (chunkRequest f ci)).response.TotalChunks else tc)
        = ((data.length / C + 1 : Nat) : Int) := by
      split_ifs with h0
      · rw [hr]
      · rcases htc with h1 | h1
        · exact absurd h1 h0
        · exact h1
    rw [heff] at hbody
    rw [hbody] at h
    split_ifs at h with hge
    injection h with h1 h2
    have hci : ci = data.length / C := by
      push_cast at hge
      omega
    have hfs : w1.fs dp = some (.file data true) := by
      rw [← h1]
      simp only []
      rw [appendFile_same w.fs dp _ _ true hw, hr]
      simp only []
      rw [← List.take_add, hci]
      have h3 : data.length / C * C + C = (data.length / C + 1) * C := by ring
      rw [h3, take_all_chunks C hC data]
    rw [downloadLoop_exit C (originEnv C fsO) f dp ci tc w w1 true (by rw [hbody, if_pos hge, h1]),
      loopWorlds_exit C (originEnv C fsO) f dp ci tc w w1 true (by rw [hbody, if_pos hge, h1])]
    refine ⟨rfl, hfs, ?_⟩
    have h4 : data.length / C + 1 - ci = 1 := by omega
    rw [h4]
    simp only [List.map_cons, List.map_nil, List.range'_one, hfs]
    rw [hci, take_all_chunks C hC data]
  | case2 ci tc w ci' tc' w1 h ih =>
    have hk2 : ci * C ≤ data.length := (Nat.le_div_iff_mul_le hC).mp hle
    have hr := origin_response C fsO f data hS hO ci hk2
    have hbody := loopBody_ok C (originEnv C fsO) f dp ci tc w _ (originEnv_peer C fsO f ci ci)
      (by rw [hr]; simp) rfl rfl
    have heff : (if tc = 0 then
        (Server.handleFileRequest C fsO (chunkRequest f ci)).response.TotalChunks else tc)
        = ((data.length / C + 1 : Nat) : Int) := by
      split_ifs with h0
      · rw [hr]
      · rcases htc with h1 | h1
        · exact absurd h1 h0
        · exact h1
    rw [heff] at hbody
    have hagain := h
    rw [hbody] at h
    split_ifs at h with hge
    injection h with h1 h2 h3
    have hci : ci + 1 ≤ data.length / C := by
      push_cast at hge
      omega
    have hfs : w1.fs dp = some (.file (data.take ((ci + 1) * C)) true) := by
      rw [← h3]
      simp only []
      rw [appendFile_same w.fs dp _ _ true hw, hr]
      simp only []
      rw [← List.take_add, Nat.add_mul, Nat.one_mul]
    subst h1
    obtain ⟨ih1, ih2, ih3⟩ := ih hci (Or.inr h2.symm) hfs
    rw [downloadLoop_again C (originEnv C fsO) f dp ci tc w w1 (ci + 1) tc' hagain,
      loopWorlds_again C (originEnv C fsO) f dp ci tc w w1 (ci + 1) tc' hagain]
    refine ⟨ih1, ih2, ?_⟩
    have h4 : data.length / C + 1 - ci = (data.length / C + 1 - (ci + 1)) + 1 := by omega
    rw [h4, List.range'_succ, List.map_cons, List.map_cons, ih3, hfs]

end Daemon

/-! ## C15: the copy equals the origin file -/

/-- C15: for a readable file held by the origin (of a size fitting an `int64`),
chunk size `C > 0` and a destination path that is not a directory, the run of
`performDownload` against the origin's handler, with no transport or storage
failure, returns without error and leaves at the destination path a file equal
to the origin file. After the pass for chunk `k` the destination holds exactly
what positional writes of the chunks `0 .. k`, chunk `j` at byte offset `j * C`,
produce, and the positional writes of all chunks produce the origin file: the
sequential appends coincide with the positional writes. -/
theorem download_from_origin_copies_file (C : Nat) (hC : 0 < C) (fsO : FileSystem) (w : World)
    (f : String) (data : List Byte) (hS : data.length + 1 < 2 ^ 63)
    (hO : fsO (Join Server.UploadDir (Base f)) = some (.file data true))
    (hdest : ∀ n, w.fs (Join Daemon.CacheDir f) ≠ some (.dir n)) :
    (Daemon.performDownload C (originEnv C fsO) w f).2 = true
    ∧ (Daemon.performDownload C (originEnv C fsO) w f).1.fs (Join Daemon.CacheDir f)
        = some (.file data true)
    ∧ (Daemon.loopWorlds C (originEnv C fsO) f (Join Daemon.CacheDir f) 0 0
          { w with fs := Function.update w.fs (Join Daemon.CacheDir f) (some (.file [] true)) }).map
          (fun w' => w'.fs (Join Daemon.CacheDir f))
        = (List.range (data.length / C + 1)).map
            (fun k => some (.file (positionalWrites C (originChunks C fsO f (k + 1))) true))
    ∧ positionalWrites C (originChunks C fsO f (data.length / C + 1)) = data := by
  have hc : createFile w.fs (Join Daemon.CacheDir f) (originEnv C fsO).createOk
      = some (Function.update w.fs (Join Daemon.CacheDir f) (some (.file [] true))) := by
    unfold createFile
    cases hfs : w.fs (Join Daemon.CacheDir f) with
    | none => rfl
    | some node =>
      cases node with
      | file content readable => rfl
      | dir n => exact absurd hfs (hdest n)
  have hrun : Daemon.performDownload C (originEnv C fsO) w f
      = Daemon.downloadLoop C (originEnv C fsO) f (Join Daemon.CacheDir f) 0 0
          { w with
            fs := Function.update w.fs (Join Daemon.CacheDir f) (some (.file [] true)) } := by
    have hs : (originEnv C fsO).streamOk 0 = true := rfl
    simp [Daemon.performDownload, hs, hc]
  obtain ⟨h1, h2, h3⟩ := Daemon.downloadLoop_origin C hC fsO f (Join Daemon.CacheDir f) data hS hO
    0 0 { w with fs := Function.update w.fs (Join Daemon.CacheDir f) (some (.file [] true)) }
    (Nat.zero_le _) (Or.inl rfl) (by simp)
  rw [hrun]
  refine ⟨h1, h2, ?_, ?_⟩
  · rw [h3, Nat.sub_zero, List.range_eq_range']
    apply List.map_congr_left
    intro k hk
    have hk1 : k + 1 ≤ data.length / C + 1 := by
      have := (List.mem_range'_1.mp hk).2
      omega
    rw [positionalWrites_origin C hC fsO f data hS hO (k + 1) hk1]
  · rw [positionalWrites_origin C hC fsO f data hS hO _ (le_refl _), take_all_chunks C hC data]

/-- C15 on the concrete scenario: the ten-byte file `a.bin`, fetched with `C = 4`
by a fresh daemon, arrives complete. -/
theorem download_from_origin_copies_file_witness :
    (Daemon.performDownload 4 (originEnv 4 (singleFile "uploads/a.bin" tenBytes))
        enqueuedWorld "a.bin").2 = true
    ∧ (Daemon.performDownload 4 (originEnv 4 (singleFile "uploads/a.bin" tenBytes))
        enqueuedWorld "a.bin").1.fs (Join Daemon.CacheDir "a.bin")
        = some (.file tenBytes true) :=
  have h := download_from_origin_copies_file 4 (by decide)
    (singleFile "uploads/a.bin" tenBytes) enqueuedWorld "a.bin" tenBytes (by simp [tenBytes])
    (by decide)
    (fun n hn => by
      have hnone : enqueuedWorld.fs (Join Daemon.CacheDir "a.bin") = none := by decide
      rw [hnone] at hn
      cases hn)
  ⟨h.1, h.2.1⟩

end PipBingo
